import Mathlib

/-!
Verification of the hybrid-retrieval / incremental-indexing core of an MCP
content server (Python sources: `src/indexer.py`, `src/chroma_service.py`,
`src/mcp_server.py`, `src/models.py`).

Shallow-embedding conventions used throughout:
* Python strings are Lean `String`; `str.strip()` is `pyStrip` (ASCII
  whitespace, which covers every character these claims exercise).
* Python truthiness of strings/options is modelled by `pyTruthy`/`optTruthy`.
* `datetime` values are modelled as `Int`; `datetime.isoformat` followed by
  `datetime.fromisoformat` round-trips exactly, so storing and re-parsing a
  timestamp is modelled as the identity on `Option Int`.
* `hashlib.sha256(...).hexdigest()` and `markdownify` are external pure
  functions; they are passed in as explicit function arguments
  (`hashFn`, `mdFn`) of the indexer configuration.
* Chroma document ids `f"{content_type}_{post_id}_{chunk_index}"` are modelled
  as the triple `(content_type, post_id, chunk_index)`: the format string is
  injective in the triple because the content type contains no underscore and
  the chunk index is the digit-only suffix after the last underscore.
* Python floats used for weights/scores are modelled as `ℚ`.
-/

namespace ContraptionMCP

/-! ### Python-style string primitives -/

/-- Characters treated as whitespace by Python's `str.strip()` / `str.split()`
(ASCII fragment: space, tab, newline, carriage return, vertical tab, form feed). -/
def pyIsSpace (c : Char) : Bool :=
  c == ' ' || c == '\t' || c == '\n' || c == '\r' || c == Char.ofNat 11 || c == Char.ofNat 12

/-- `str.strip()` on the character list. -/
def pyStripList (cs : List Char) : List Char :=
  ((cs.dropWhile pyIsSpace).reverse.dropWhile pyIsSpace).reverse

/-- `str.strip()`. -/
def pyStrip (s : String) : String :=
  ⟨pyStripList s.data⟩

/-- `s.startswith(pre)`. -/
def pyStartsWith (s pre : String) : Bool :=
  pre.data.isPrefixOf s.data

/-- ASCII lowercasing of one character (the values these claims meet are
ASCII). -/
def pyLowerChar (c : Char) : Char :=
  if 65 ≤ c.toNat ∧ c.toNat ≤ 90 then Char.ofNat (c.toNat + 32) else c

/-- `s.lower()`. -/
def pyLower (s : String) : String :=
  ⟨s.data.map pyLowerChar⟩

/-- Python truthiness of a string. -/
def pyTruthy (s : String) : Bool :=
  !s.isEmpty

/-- Python truthiness of an optional string (`None` and `""` are falsy). -/
def optTruthy : Option String → Bool
  | none => false
  | some s => pyTruthy s

/-- Python `a or b` on optional strings. -/
def pyOr (a b : Option String) : Option String :=
  if optTruthy a then a else b

/-- `str.split()` with no separator: split on whitespace runs, dropping empties. -/
def pySplitWs (s : String) : List String :=
  (s.split pyIsSpace).filter (fun w => !w.isEmpty)

/-- `s[:n]` on a Python string. -/
def pySliceTo (n : Nat) (s : String) : String :=
  ⟨s.data.take n⟩

/-! ### Data model (from `src/models.py`) -/

/-- A Ghost tag/author record: the code only reads `tag.get("name", "")`;
the `visibility` marker is carried along because the specification talks
about it (the code never inspects it). -/
structure GhostTag where
  name : Option String
  visibility : Option String
deriving DecidableEq, Repr

/-- `models.GhostPost` (the fields the indexing core reads). -/
structure GhostPost where
  id : String
  slug : String
  title : String
  html : Option String
  plaintext : Option String
  url : Option String
  published_at : Option Int
  updated_at : Option Int
  custom_excerpt : Option String
  meta_description : Option String
  tags : List GhostTag
  authors : List GhostTag
deriving DecidableEq, Repr

/-- `models.ContentType = Literal["post", "page"]`. -/
inductive ContentType where
  | post
  | page
deriving DecidableEq, Repr

def ContentType.toStr : ContentType → String
  | .post => "post"
  | .page => "page"

/-- `models.PostChunk`. -/
structure PostChunk where
  post_id : String
  post_slug : String
  post_title : String
  post_url : String
  chunk_text : String
  chunk_index : Nat
  total_chunks : Nat
  content_type : ContentType
  content_hash : Option String
  published_at : Option Int
  updated_at : Option Int
  tags : List String
  authors : List String
deriving DecidableEq, Repr

/-! ### Chunker (`PostIndexer` in `src/indexer.py`) -/

/-- Indexer configuration: the two settings the chunker reads plus the two
external pure functions it calls (`markdownify` and sha256-hexdigest). -/
structure IndexerConfig where
  chunkSize : Nat
  chunkOverlap : Nat
  ghostApiUrl : String
  mdFn : String → String
  hashFn : String → String

/-- A line consisting only of whitespace (or empty). -/
def isBlankLine (s : String) : Bool :=
  s.data.all pyIsSpace

/-- Group consecutive non-blank lines into paragraphs. Together with the
per-paragraph strip and empty-filter below this models
`re.split(r"\n\s*\n+", text)`: since `\s` includes `\n`, that regex splits
exactly at whitespace runs containing at least two newlines, i.e. at blank
lines. -/
def groupParas (ls : List String) : List (List String) :=
  ls.foldr
    (fun l acc =>
      if isBlankLine l then [] :: acc
      else
        match acc with
        | [] => [[l]]
        | g :: gs => (l :: g) :: gs)
    []

/-- `PostIndexer._split_paragraphs`. -/
def splitParagraphs (text : String) : List String :=
  let paras := (groupParas ((pyStrip text).splitOn "\n")).map (fun g => "\n".intercalate g)
  (paras.map pyStrip).filter (fun p => !p.isEmpty)

/-- `range(0, len, step)` for `len > 0`, `step > 0`. -/
def rangeStep (len step : Nat) : List Nat :=
  (List.range ((len + step - 1) / step)).map (fun j => j * step)

/-- `PostIndexer._chunk_by_paragraphs`. -/
def chunkByParagraphs (size overlap : Nat) (text : String) : List String :=
  (splitParagraphs text).flatMap fun paragraph =>
    let words := pySplitWs paragraph
    if words.length ≤ size then [paragraph]
    else
      let step := max (size - overlap) 1
      (rangeStep words.length step).map fun i => " ".intercalate ((words.drop i).take size)

/-- `PostIndexer._extract_markdown`: prefer `markdownify(html)`, fall back to
plaintext, else `None`. -/
def extractMarkdown (mdFn : String → String) (post : GhostPost) : Option String :=
  if optTruthy post.html then some (mdFn (post.html.getD ""))
  else if optTruthy post.plaintext then post.plaintext
  else none

/-- The list comprehension `[tag.get("name", "") for tag in tags if tag.get("name")]`. -/
def tagNames (tags : List GhostTag) : List String :=
  (tags.filter (fun t => optTruthy t.name)).map (fun t => t.name.getD "")

/-- The ordered unit texts assembled by `PostIndexer._build_chunks_and_hash`:
stripped title (when truthy), stripped `custom_excerpt or meta_description`
(when truthy), then the paragraph chunks of the extracted markdown. -/
def chunksTextOf (cfg : IndexerConfig) (post : GhostPost) : List String :=
  (if pyTruthy post.title then [pyStrip post.title] else [])
    ++ (if optTruthy (pyOr post.custom_excerpt post.meta_description) then
          [pyStrip ((pyOr post.custom_excerpt post.meta_description).getD "")]
        else [])
    ++ (if optTruthy (extractMarkdown cfg.mdFn post) then
          chunkByParagraphs cfg.chunkSize cfg.chunkOverlap
            ((extractMarkdown cfg.mdFn post).getD "")
        else [])

/-- `post.url or f"{settings.ghost_api_url}/{post.slug}/"`. -/
def postUrlOf (cfg : IndexerConfig) (post : GhostPost) : String :=
  if optTruthy post.url then post.url.getD ""
  else cfg.ghostApiUrl ++ "/" ++ post.slug ++ "/"

/-- `PostIndexer._build_chunks_and_hash`. -/
def buildChunksAndHash (cfg : IndexerConfig) (post : GhostPost) (ct : ContentType) :
    List PostChunk × Option String :=
  if (chunksTextOf cfg post).isEmpty then ([], none)
  else
    ((chunksTextOf cfg post).enum.filterMap fun it =>
      if (pyStrip it.2).isEmpty then none
      else
        some
          { post_id := post.id
            post_slug := post.slug
            post_title := post.title
            post_url := postUrlOf cfg post
            chunk_text := it.2
            chunk_index := it.1
            total_chunks := (chunksTextOf cfg post).length
            content_type := ct
            content_hash := some (cfg.hashFn ("\n\n".intercalate (chunksTextOf cfg post)))
            published_at := post.published_at
            updated_at := post.updated_at
            tags := tagNames post.tags
            authors := tagNames post.authors },
      some (cfg.hashFn ("\n\n".intercalate (chunksTextOf cfg post))))

/-! ### Vector-store model and read-side helpers (`src/chroma_service.py`)

The Chroma collection is modelled as a list of stored chunk records in
insertion order; `collection.get` without a filter walks this list (the
service paginates through all of it), `upsert` replaces by document id or
appends, and `delete` removes by id. -/

/-- Model of the Chroma document id `f"{content_type}_{post_id}_{chunk_index}"`
as the triple it injectively encodes. -/
abbrev ChunkId := String × String × Nat

/-- The stored record for one chunk: the metadata written by
`ChromaService.upsert_chunks` plus the document id. -/
structure StoredChunk where
  cid : ChunkId
  post_id : String
  post_slug : String
  post_title : String
  post_url : String
  chunk_index : Nat
  total_chunks : Nat
  content_type : String
  tags : String
  authors : String
  published_at : Option Int
  updated_at : Option Int
  content_hash : Option String
deriving DecidableEq, Repr

abbrev Store := List StoredChunk

/-- One mutating call issued to the vector store: a `collection.delete`
(recording the where-clause it was computed from and the deleted ids) or a
`collection.upsert` (recording the upserted ids). -/
inductive StoreOp where
  | deleteOp (slug : String) (ct : Option String) (ids : List ChunkId)
  | upsertOp (ids : List ChunkId)
deriving DecidableEq, Repr

/-- `ChromaService._normalize_content_type`. -/
def normalizeContentType (v : Option String) : ContentType :=
  if pyLower (pyStrip (v.getD "")) == "page" then .page else .post

/-- `ChromaService._split_comma_separated` (string branch; stored tag/author
metadata is always a comma-joined string). -/
def splitCommaSeparated (v : Option String) : List String :=
  match v with
  | none => []
  | some s =>
    if s.isEmpty then []
    else ((s.splitOn ",").map pyStrip).filter (fun part => !part.isEmpty)

/-- `ChromaService._filter_public_tag_names`. -/
def filterPublicTagNames (tags : List String) : List String :=
  tags.filter (fun tag => !tag.isEmpty && !(pyStartsWith tag "#"))

/-- Document id of a chunk, `f"{content_type}_{post_id}_{chunk_index}"`. -/
def chunkId (c : PostChunk) : ChunkId :=
  (c.content_type.toStr, c.post_id, c.chunk_index)

/-- The metadata record `ChromaService.upsert_chunks` writes for one chunk.
`published_at`/`updated_at` are stored only when present (datetimes are always
truthy), `content_hash` only when truthy. -/
def toStored (c : PostChunk) : StoredChunk :=
  { cid := chunkId c
    post_id := c.post_id
    post_slug := c.post_slug
    post_title := c.post_title
    post_url := c.post_url
    chunk_index := c.chunk_index
    total_chunks := c.total_chunks
    content_type := c.content_type.toStr
    tags := ",".intercalate c.tags
    authors := ",".intercalate c.authors
    published_at := c.published_at
    updated_at := c.updated_at
    content_hash := if optTruthy c.content_hash then c.content_hash else none }

/-- Chroma `upsert` of a single record: replace the record with the same id,
else append. -/
def upsertOne (s : Store) (c : StoredChunk) : Store :=
  if s.any (fun x => x.cid == c.cid) then s.map (fun x => if x.cid == c.cid then c else x)
  else s ++ [c]

/-- `ChromaService.upsert_chunks` (returns early on an empty chunk list). -/
def upsertChunks (s : Store) (cs : List PostChunk) : Store × List StoreOp :=
  if cs.isEmpty then (s, [])
  else ((cs.map toStored).foldl upsertOne s, [.upsertOp (cs.map chunkId)])

/-- The where-clause built by `_build_where({"post_slug": slug, "content_type": ct})`. -/
def matchesWhere (slug : String) (ct : Option String) (x : StoredChunk) : Bool :=
  x.post_slug == slug &&
    (match ct with
     | none => true
     | some t => x.content_type == t)

/-- The ids fetched by `delete_post`'s `collection.get(where, limit=300)`. -/
def deleteIds (s : Store) (slug : String) (ct : Option String) : List ChunkId :=
  ((s.filter (matchesWhere slug ct)).take 300).map (fun x => x.cid)

/-- `ChromaService.delete_post`: fetch up to 300 matching records, delete
their ids when any matched. -/
def deletePost (s : Store) (slug : String) (ct : Option String) : Store × List StoreOp :=
  if (deleteIds s slug ct).isEmpty then (s, [])
  else (s.filter (fun x => !((deleteIds s slug ct).contains x.cid)),
    [.deleteOp slug ct (deleteIds s slug ct)])

/-- One `IndexSnapshotEntry` of `ChromaService.get_indexed_content_index`. -/
structure SnapshotEntry where
  updated_at : Option Int
  content_hash : Option String
deriving DecidableEq, Repr, Inhabited

/-- `ChromaService.get_indexed_content_index`: walk every stored record in
order, keep the first record per (stripped slug, normalized content type) key. -/
def chunkSnapKey (c : StoredChunk) : String × ContentType :=
  (pyStrip c.post_slug, normalizeContentType (some c.content_type))

def chunkSnapEntry (c : StoredChunk) : SnapshotEntry :=
  { updated_at := c.updated_at
    content_hash :=
      if optTruthy c.content_hash then some (pyStrip (c.content_hash.getD ""))
      else none }

def snapshotStep (acc : List ((String × ContentType) × SnapshotEntry)) (c : StoredChunk) :
    List ((String × ContentType) × SnapshotEntry) :=
  if (pyStrip c.post_slug).isEmpty then acc
  else if acc.any (fun kv => kv.1 == chunkSnapKey c) then acc
  else acc ++ [(chunkSnapKey c, chunkSnapEntry c)]

def snapshotOf (s : Store) : List ((String × ContentType) × SnapshotEntry) :=
  s.foldl snapshotStep []

def snapLookup (snap : List ((String × ContentType) × SnapshotEntry))
    (k : String × ContentType) : Option SnapshotEntry :=
  (snap.find? (fun kv => kv.1 == k)).map (fun kv => kv.2)

/-! ### Indexing pipeline (`PostIndexer.index_all_posts`) -/

def itemKey (it : GhostPost × ContentType) : String × ContentType :=
  (it.1.slug, it.2)

/-- State threaded through the classification loop of `index_all_posts`. -/
structure ClassifyState where
  store : Store
  ops : List StoreOp
  newItems : List (GhostPost × ContentType × List PostChunk)
  updatedItems : List (GhostPost × ContentType × List PostChunk)
  currentKeys : List (String × ContentType)
deriving Repr

/-- The timestamp comparison of `index_all_posts`:
`updated_at is not None and existing_updated_at is not None and updated_at > existing_updated_at`. -/
def tsNewer : Option Int → Option Int → Bool
  | some a, some b => a > b
  | _, _ => false

/-- One iteration of the classification loop in `index_all_posts`. -/
def classifyStep (cfg : IndexerConfig) (snap : List ((String × ContentType) × SnapshotEntry))
    (st : ClassifyState) (item : GhostPost × ContentType) : ClassifyState :=
  if (buildChunksAndHash cfg item.1 item.2).1.isEmpty then
    if (snapLookup snap (item.1.slug, item.2)).isSome then
      { store := (deletePost st.store item.1.slug (some item.2.toStr)).1
        ops := st.ops ++ (deletePost st.store item.1.slug (some item.2.toStr)).2
        newItems := st.newItems
        updatedItems := st.updatedItems
        currentKeys := st.currentKeys ++ [(item.1.slug, item.2)] }
    else { st with currentKeys := st.currentKeys ++ [(item.1.slug, item.2)] }
  else if (snapLookup snap (item.1.slug, item.2)).isSome = false then
    { st with
      currentKeys := st.currentKeys ++ [(item.1.slug, item.2)]
      newItems := st.newItems ++ [(item.1, item.2, (buildChunksAndHash cfg item.1 item.2).1)] }
  else if (buildChunksAndHash cfg item.1 item.2).2
        ≠ ((snapLookup snap (item.1.slug, item.2)).getD default).content_hash
      || tsNewer item.1.updated_at
        ((snapLookup snap (item.1.slug, item.2)).getD default).updated_at then
    { st with
      currentKeys := st.currentKeys ++ [(item.1.slug, item.2)]
      updatedItems :=
        st.updatedItems ++ [(item.1, item.2, (buildChunksAndHash cfg item.1 item.2).1)] }
  else { st with currentKeys := st.currentKeys ++ [(item.1.slug, item.2)] }

/-- `PostIndexer.index_post` with pre-built chunks: delete the key's existing
chunks, then upsert the new ones. -/
def indexPost (acc : Store × List StoreOp)
    (item : GhostPost × ContentType × List PostChunk) : Store × List StoreOp :=
  ((upsertChunks (deletePost acc.1 item.1.slug (some item.2.1.toStr)).1 item.2.2).1,
    acc.2 ++ (deletePost acc.1 item.1.slug (some item.2.1.toStr)).2
      ++ (upsertChunks (deletePost acc.1 item.1.slug (some item.2.1.toStr)).1 item.2.2).2)

/-- The removal loop of `index_all_posts`: every snapshot key with no current
remote item is deleted. -/
def removalStep (currentKeys : List (String × ContentType))
    (acc : Store × List StoreOp × Nat)
    (kv : (String × ContentType) × SnapshotEntry) : Store × List StoreOp × Nat :=
  if kv.1 ∈ currentKeys then acc
  else
    ((deletePost acc.1 kv.1.1 (some kv.1.2.toStr)).1,
      acc.2.1 ++ (deletePost acc.1 kv.1.1 (some kv.1.2.toStr)).2,
      acc.2.2 + 1)

/-- Result of one full `index_all_posts` pass. -/
structure IndexPassResult where
  newItems : List (GhostPost × ContentType × List PostChunk)
  updatedItems : List (GhostPost × ContentType × List PostChunk)
  removedCount : Nat
  ops : List StoreOp
  store : Store
deriving Repr

/-- `PostIndexer.index_all_posts` over a given remote item list and store. -/
def indexAllPosts (cfg : IndexerConfig) (items : List (GhostPost × ContentType))
    (store0 : Store) : IndexPassResult :=
  let snap := snapshotOf store0
  let cst := items.foldl (classifyStep cfg snap)
    { store := store0, ops := [], newItems := [], updatedItems := [], currentKeys := [] }
  let upserted := (cst.newItems ++ cst.updatedItems).foldl indexPost (cst.store, cst.ops)
  let removed := snap.foldl (removalStep cst.currentKeys) (upserted.1, upserted.2, 0)
  { newItems := cst.newItems
    updatedItems := cst.updatedItems
    removedCount := removed.2.2
    ops := removed.2.1
    store := removed.1 }

/-! ### Hybrid RRF search (`ChromaService._hybrid_rrf_search`)

The code builds the Chroma rank expression
`Val(-w_dense)/(Val(k)+Knn_dense) + Val(-w_sparse)/(Val(k)+Knn_sparse)` and
has the store sort ascending by its value.  The store is the external
capability here: each `Knn` yields the item's 1-based rank within that
channel's candidate list, an item absent from a channel's list contributes
nothing from that channel, and only items ranked by some `Knn` of the
expression are returned.  Candidate lists are passed in as the store oracle. -/

/-- A Chroma `SparseVector` (a dict, hence always truthy when present). -/
structure SparseVec where
  indices : List Nat
  values : List ℚ
deriving DecidableEq, Repr

/-- Python truthiness of the optional dense embedding (a `list[float]`:
`None` and the empty list are falsy). -/
def denseTruthy : Option (List ℚ) → Bool
  | none => false
  | some l => !l.isEmpty

/-- 1-based rank of an item within a channel's candidate list. -/
def knnRank (cands : List String) (x : String) : Option Nat :=
  (cands.indexOf? x).map (fun i => i + 1)

/-- Value of one `Val(-w)/(Val(k)+Knn)` summand at an item. -/
def rrfTerm (w k : ℚ) (cands : List String) (x : String) : ℚ :=
  match knnRank cands x with
  | some r => -w / (k + (r : ℚ))
  | none => 0

/-- Value of the full rank expression at an item. -/
def evalRankExpr (dActive sActive : Bool) (dW sW k : ℚ)
    (denseCands sparseCands : List String) (x : String) : ℚ :=
  (if dActive then rrfTerm dW k denseCands x else 0)
    + (if sActive then rrfTerm sW k sparseCands x else 0)

/-- The per-channel contribution `weight / (k + rank)` as the specification
states it (0 for an item absent from the channel's candidate list). -/
def specContribution (w k : ℚ) (cands : List String) (x : String) : ℚ :=
  match knnRank cands x with
  | some r => w / (k + (r : ℚ))
  | none => 0

/-- The fused score as the specification states it: the sum of the active
channels' contributions. -/
def specFusedScore (dActive sActive : Bool) (dW sW k : ℚ)
    (denseCands sparseCands : List String) (x : String) : ℚ :=
  (if dActive then specContribution dW k denseCands x else 0)
    + (if sActive then specContribution sW k sparseCands x else 0)

/-- Deduplicate keeping first occurrences (the ranked union of the channels'
candidate lists). -/
def firstDedup (l : List String) : List String :=
  l.foldl (fun acc x => if x ∈ acc then acc else acc ++ [x]) []

/-- `dense_weight = settings.dense_query_weight if dense_embedding else 0.0`. -/
def effectiveDenseWeight (dW : ℚ) (denseEmbedding : Option (List ℚ)) : ℚ :=
  if denseTruthy denseEmbedding then dW else 0

/-- `sparse_weight = settings.sparse_query_weight if sparse_embedding else 0.0`. -/
def effectiveSparseWeight (sW : ℚ) (sparseEmbedding : Option SparseVec) : ℚ :=
  if sparseEmbedding.isSome then sW else 0

/-- `if dense_embedding and dense_weight > 0`: the dense `Knn` summand is built. -/
def denseActive (dW : ℚ) (denseEmbedding : Option (List ℚ)) : Bool :=
  denseTruthy denseEmbedding && decide (effectiveDenseWeight dW denseEmbedding > 0)

/-- `if sparse_embedding and sparse_weight > 0`: the sparse `Knn` summand is built. -/
def sparseActive (sW : ℚ) (sparseEmbedding : Option SparseVec) : Bool :=
  sparseEmbedding.isSome && decide (effectiveSparseWeight sW sparseEmbedding > 0)

/-- The store's response rows for the built rank expression: the pool is the
union of the active channels' candidate lists, sorted ascending by expression
value (a stable sort models the store's deterministic ranking) and capped at
`max(limit*3, limit)`; each row carries its expression value as score. -/
def rankedRows (dA sA : Bool) (dw sw k : ℚ) (denseCands sparseCands : List String)
    (limit : Nat) : List (String × ℚ) :=
  ((List.insertionSort
      (fun a b => evalRankExpr dA sA dw sw k denseCands sparseCands a
        ≤ evalRankExpr dA sA dw sw k denseCands sparseCands b)
      (firstDedup ((if dA then denseCands else [])
        ++ (if sA then sparseCands else [])))).take (max (limit * 3) limit)).map
    (fun x => (x, evalRankExpr dA sA dw sw k denseCands sparseCands x))

/-- `ChromaService._hybrid_rrf_search` up to the store response: effective
weights, the two failure modes, and the ranked rows of the built expression. -/
def hybridRrfSearch (dW sW k : ℚ) (denseEmbedding : Option (List ℚ))
    (sparseEmbedding : Option SparseVec) (denseCands sparseCands : List String)
    (limit : Nat) : Except String (List (String × ℚ)) :=
  if effectiveDenseWeight dW denseEmbedding = 0 ∧ effectiveSparseWeight sW sparseEmbedding = 0 then
    .error "No embeddings available for search"
  else if !denseActive dW denseEmbedding && !sparseActive sW sparseEmbedding then
    .error "Rank expression could not be constructed"
  else
    .ok (rankedRows (denseActive dW denseEmbedding) (sparseActive sW sparseEmbedding)
      (effectiveDenseWeight dW denseEmbedding) (effectiveSparseWeight sW sparseEmbedding)
      k denseCands sparseCands limit)

/-- Whether a search outcome is the error case. -/
def isErr (r : Except String (List (String × ℚ))) : Bool :=
  match r with
  | .error _ => true
  | .ok _ => false

/-- Ranked ids of a search outcome (empty on error). -/
def resultIds (r : Except String (List (String × ℚ))) : List String :=
  match r with
  | .ok rows => rows.map (fun p => p.1)
  | .error _ => []

/-- `ChromaService.search` around the hybrid search: the dense query embedding
is best-effort (`None` when it raised — the caught-exception branch), the
sparse query embedding is always produced. -/
def searchPipeline (dW sW k : ℚ) (denseOutcome : Option (List ℚ)) (sparseEmb : SparseVec)
    (denseCands sparseCands : List String) (limit : Nat) :
    Except String (List (String × ℚ)) :=
  hybridRrfSearch dW sW k denseOutcome (some sparseEmb) denseCands sparseCands limit

/-! ### Search-response parsing (`ChromaService._parse_search_response`) -/

/-- A stored-record metadata dict as the read side sees it (`none` field =
key absent). A whole-dict `none` below models the empty dict. -/
structure RespMeta where
  post_id : Option String
  post_slug : Option String
  post_title : Option String
  post_url : Option String
  chunk_index : Option Int
  published_at : Option Int
  updated_at : Option Int
  content_type : Option String
  tags : Option String
  authors : Option String
deriving DecidableEq, Repr, Inhabited

/-- `models.SearchResult`. -/
structure PostSearchResult where
  post_slug : String
  post_title : String
  post_url : String
  excerpt : String
  relevance_score : ℚ
  published_at : Option Int
  content_type : ContentType
  tags : List String
deriving DecidableEq, Repr

/-- `ChromaService._build_search_result_from_metadata`. -/
def buildSearchResultFromMetadata (m : RespMeta) (excerpt : String) (score : ℚ) :
    PostSearchResult :=
  { post_slug := m.post_slug.getD ""
    post_title := m.post_title.getD ""
    post_url := m.post_url.getD ""
    excerpt := excerpt
    relevance_score := score
    published_at := m.published_at
    content_type := normalizeContentType m.content_type
    tags := filterPublicTagNames (splitCommaSeparated m.tags) }

/-- The result-assembly loop of `_parse_search_response`: iterate the response
rows by index, skip empty metadata, optionally skip already-seen non-empty
URLs, append the assembled result and stop once `limit` results are built. -/
def parseLoop (docs : List String) (metas : List (Option RespMeta))
    (scores : List (Option ℚ)) (limit : Nat) (distinct : Bool) :
    List String → Nat → List String → List PostSearchResult → List PostSearchResult
  | [], _, _, acc => acc
  | _ :: rest, idx, seen, acc =>
    match (metas.getD idx none) with
    | none => parseLoop docs metas scores limit distinct rest (idx + 1) seen acc
    | some m =>
      let url := m.post_url.getD ""
      if distinct && !url.isEmpty && url ∈ seen then
        parseLoop docs metas scores limit distinct rest (idx + 1) seen acc
      else
        let seen := if distinct && !url.isEmpty then seen ++ [url] else seen
        let excerptSource := docs.getD idx ""
        let excerpt := if excerptSource.isEmpty then "" else pySliceTo 300 excerptSource
        let score := (scores.getD idx none).getD 0
        let acc := acc ++ [buildSearchResultFromMetadata m excerpt score]
        if acc.length ≥ limit then acc
        else parseLoop docs metas scores limit distinct rest (idx + 1) seen acc

/-- `_parse_search_response` restricted to its result list (the `ids`,
`documents`, `metadatas` and `scores` payload rows of the store response). -/
def parseSearchResponse (ids : List String) (docs : List String)
    (metas : List (Option RespMeta)) (scores : List (Option ℚ)) (limit : Nat)
    (distinct : Bool) : List PostSearchResult :=
  parseLoop docs metas scores limit distinct ids 0 [] []

/-- The result the loop assembles for response row `idx` with metadata `m`. -/
def assembledRow (docs : List String) (scores : List (Option ℚ)) (idx : Nat)
    (m : RespMeta) : PostSearchResult :=
  buildSearchResultFromMetadata m
    (if (docs.getD idx "").isEmpty then "" else pySliceTo 300 (docs.getD idx ""))
    ((scores.getD idx none).getD 0)

/-- The `(index, metadata)` pairs of the response rows carrying usable
metadata, for row indices `idx, idx+1, …, idx+n-1`. -/
def validRowsFrom (metas : List (Option RespMeta)) (idx n : Nat) : List (Nat × RespMeta) :=
  (List.range' idx n).filterMap (fun i => (metas.getD i none).map (fun m => (i, m)))

/-- Deduplication as the specification words it: walk the usable rows in rank
order and keep a row only when its non-empty canonical URL has not been seen
before — i.e. keep the minimum-rank representative per URL. -/
def dedupByUrl (seen : List String) : List (Nat × RespMeta) → List (Nat × RespMeta)
  | [] => []
  | (i, m) :: rest =>
    let url := m.post_url.getD ""
    if !url.isEmpty && url ∈ seen then dedupByUrl seen rest
    else (i, m) :: dedupByUrl (if !url.isEmpty then seen ++ [url] else seen) rest

/-! ### Document reconstruction (`ChromaService.get_post_markdown`) -/

/-- `models.PostSummary`. -/
structure PostSummary where
  id : String
  slug : String
  title : String
  excerpt : Option String
  url : String
  published_at : Option Int
  updated_at : Option Int
  content_type : ContentType
  tags : List String
  authors : List String
deriving DecidableEq, Repr

/-- The `(chunk_index, chunk_text, metadata)` triples built from the zipped
`documents`/`metadatas` rows, skipping `None` metadata. -/
def mdChunkRows (rows : List (Option String × Option RespMeta)) :
    List (Int × String × RespMeta) :=
  rows.filterMap fun row =>
    match row.2 with
    | none => none
    | some m => some (m.chunk_index.getD 0, row.1.getD "", m)

/-- The summary/markdown pair the tail of `get_post_markdown` assembles from
the sorted chunk triples: join the truthy chunk texts stripped with blank
lines, take the summary fields from the first sorted chunk's metadata, and the
excerpt from the first chunk whose stripped text is non-empty and differs from
the title. -/
def assembleFromSorted (sorted : List (Int × String × RespMeta)) (slug : String) :
    Option PostSummary × Option String :=
  let markdown :=
    "\n\n".intercalate ((sorted.filter (fun c => pyTruthy c.2.1)).map (fun c => pyStrip c.2.1))
  let primary := sorted.headI.2.2
  let postTitle := pyStrip (primary.post_title.getD "")
  let excerptSource :=
    match sorted.find? (fun c =>
      pyTruthy c.2.1 && pyTruthy (pyStrip c.2.1) && pyStrip c.2.1 != postTitle) with
    | some c => c.2.1
    | none => sorted.headI.2.1
  let summary : PostSummary :=
    { id := primary.post_id.getD ""
      slug := slug
      title := primary.post_title.getD ""
      excerpt := if excerptSource.isEmpty then none else some (pySliceTo 200 excerptSource)
      url := primary.post_url.getD ""
      published_at := primary.published_at
      updated_at := primary.updated_at
      content_type := normalizeContentType primary.content_type
      tags := filterPublicTagNames (splitCommaSeparated primary.tags)
      authors := splitCommaSeparated primary.authors }
  (some summary, some markdown)

/-- `ChromaService.get_post_markdown` over the store's response rows for the
requested document: build the `(chunk_index, text, metadata)` triples skipping
`None` metadata, return `(None, None)` when none remain, else sort by
`chunk_index` (Python's stable sort) and assemble. -/
def getPostMarkdown (rows : List (Option String × Option RespMeta)) (slug : String) :
    Option PostSummary × Option String :=
  if rows.isEmpty then (none, none)
  else if (mdChunkRows rows).isEmpty then (none, none)
  else
    assembleFromSorted
      (List.insertionSort (fun a b => a.1 ≤ b.1) (mdChunkRows rows)) slug

/-! ### MCP `search` tool gate (`src/mcp_server.py`) -/

/-- Outcome of the `search` tool's validation prologue: either the
short-circuit error payload, or the call into embeddings + vector store with
the stripped query and the clamped limit. -/
inductive SearchToolOutcome where
  | rejected (query : String) (results : List PostSearchResult) (count : Nat) (error : String)
  | proceeds (query : String) (limit : Nat)
deriving DecidableEq, Repr

/-- The prologue of the `search` MCP tool: strip the query, reject queries
shorter than 3 characters, clamp the limit to `settings.search_top_k`. -/
def searchToolGate (query : String) (limit : Nat) (searchTopK : Nat) : SearchToolOutcome :=
  let q := pyStrip query
  if q.length < 3 then
    .rejected q [] 0 "Query must be at least 3 characters"
  else
    .proceeds q (if limit > searchTopK then searchTopK else limit)

/-! ### Concrete fixtures -/

/-- A fixed indexer configuration for concrete evaluations (the hash function
is an arbitrary external pure function; a constant stands in for it). -/
def cfgFix : IndexerConfig :=
  { chunkSize := 500
    chunkOverlap := 50
    ghostApiUrl := "https://blog.example"
    mdFn := id
    hashFn := fun _ => "h" }

/-- A post carrying an internal (`#`-prefixed, non-public) tag. -/
def postC6 : GhostPost :=
  { id := "p1"
    slug := "s1"
    title := "T"
    html := none
    plaintext := none
    url := some "https://blog.example/s1/"
    published_at := none
    updated_at := none
    custom_excerpt := none
    meta_description := none
    tags := [{ name := some "#internal", visibility := some "internal" }]
    authors := [] }

/-- The single chunk the chunker produces for `postC6`. -/
def chunkC6 : PostChunk :=
  { post_id := "p1"
    post_slug := "s1"
    post_title := "T"
    post_url := "https://blog.example/s1/"
    chunk_text := "T"
    chunk_index := 0
    total_chunks := 1
    content_type := .post
    content_hash := some "h"
    published_at := none
    updated_at := none
    tags := ["#internal"]
    authors := [] }

/-- A post with a title but neither an HTML body nor a plaintext body. -/
def postC8 : GhostPost :=
  { id := "p2"
    slug := "s2"
    title := "Title Only"
    html := none
    plaintext := none
    url := none
    published_at := none
    updated_at := none
    custom_excerpt := none
    meta_description := none
    tags := []
    authors := [] }

/-! ### Helper lemmas -/

/-- The removal loop does nothing when every snapshot key is a current key. -/
theorem removal_fold_noop (snap : List ((String × ContentType) × SnapshotEntry))
    (keys : List (String × ContentType)) (acc : Store × List StoreOp × Nat)
    (h : ∀ kv ∈ snap, kv.1 ∈ keys) :
    snap.foldl (removalStep keys) acc = acc := by
  induction snap generalizing acc with
  | nil => rfl
  | cons kv rest ih =>
    have hk : kv.1 ∈ keys := h kv (List.mem_cons_self kv rest)
    have hstep : removalStep keys acc kv = acc := by
      unfold removalStep
      simp [hk]
    rw [List.foldl_cons, hstep]
    exact ih acc (fun x hx => h x (List.mem_cons_of_mem kv hx))

instance {α β : Type} [LinearOrder β] (f : α → β) : IsTrans α (fun a b => f a ≤ f b) :=
  ⟨fun _ _ _ h₁ h₂ => le_trans h₁ h₂⟩

instance {α β : Type} [LinearOrder β] (f : α → β) : IsTotal α (fun a b => f a ≤ f b) :=
  ⟨fun a b => le_total (f a) (f b)⟩

instance {α β : Type} [LinearOrder β] (f : α → β) : IsAntisymm α (fun a b => f a < f b) :=
  ⟨fun _ _ h₁ h₂ => absurd (lt_trans h₁ h₂) (lt_irrefl _)⟩

/-- `orderedInsert` only looks at the decisions of the relation. -/
theorem orderedInsert_congr {α : Type} (r₁ r₂ : α → α → Prop) [DecidableRel r₁]
    [DecidableRel r₂] (h : ∀ a b, r₁ a b ↔ r₂ a b) (a : α) (l : List α) :
    List.orderedInsert r₁ a l = List.orderedInsert r₂ a l := by
  induction l with
  | nil => rfl
  | cons b bs ih =>
    simp only [List.orderedInsert]
    by_cases hr : r₁ a b
    · rw [if_pos hr, if_pos ((h a b).mp hr)]
    · rw [if_neg hr, if_neg (fun hc => hr ((h a b).mpr hc)), ih]

/-- `insertionSort` only looks at the decisions of the relation. -/
theorem insertionSort_congr {α : Type} (r₁ r₂ : α → α → Prop) [DecidableRel r₁]
    [DecidableRel r₂] (h : ∀ a b, r₁ a b ↔ r₂ a b) (l : List α) :
    List.insertionSort r₁ l = List.insertionSort r₂ l := by
  induction l with
  | nil => rfl
  | cons b bs ih =>
    simp only [List.insertionSort]
    rw [ih, orderedInsert_congr r₁ r₂ h]

/-- The built rank expression evaluates to the negation of the
specification's fused score. -/
theorem evalRankExpr_eq_neg_spec (dA sA : Bool) (dw sw k : ℚ)
    (dc sc : List String) (x : String) :
    evalRankExpr dA sA dw sw k dc sc x = -(specFusedScore dA sA dw sw k dc sc x) := by
  unfold evalRankExpr specFusedScore rrfTerm specContribution
  cases hd : knnRank dc x <;> cases hs : knnRank sc x <;> cases dA <;> cases sA <;>
    simp [neg_div, neg_add, add_comm]

/-- Each returned row carries the expression value of its id as score. -/
theorem rankedRows_score (dA sA : Bool) (dw sw k : ℚ) (dc sc : List String)
    (limit : Nat) (p : String × ℚ) (hp : p ∈ rankedRows dA sA dw sw k dc sc limit) :
    p.2 = evalRankExpr dA sA dw sw k dc sc p.1 := by
  unfold rankedRows at hp
  simp only [List.mem_map] at hp
  obtain ⟨x, _, rfl⟩ := hp
  rfl

/-- The returned ids are ordered ascending in expression value. -/
theorem rankedRows_sorted (dA sA : Bool) (dw sw k : ℚ) (dc sc : List String)
    (limit : Nat) :
    ((rankedRows dA sA dw sw k dc sc limit).map Prod.fst).Pairwise
      (fun a b => evalRankExpr dA sA dw sw k dc sc a ≤ evalRankExpr dA sA dw sw k dc sc b) := by
  unfold rankedRows
  rw [List.map_map]
  have hmap : (Prod.fst ∘ fun x => (x, evalRankExpr dA sA dw sw k dc sc x)) = id := rfl
  rw [hmap, List.map_id]
  have hsorted := List.sorted_insertionSort
    (fun a b => evalRankExpr dA sA dw sw k dc sc a ≤ evalRankExpr dA sA dw sw k dc sc b)
    (firstDedup ((if dA then dc else []) ++ (if sA then sc else [])))
  exact hsorted.sublist (List.take_sublist _ _)

/-! ### Indexing-pipeline lemmas -/

/-- The content hash of an item with at least one text unit. -/
def itemHash (cfg : IndexerConfig) (post : GhostPost) : String :=
  cfg.hashFn ("\n\n".intercalate (chunksTextOf cfg post))

theorem toStr_inj (a b : ContentType) (h : a.toStr = b.toStr) : a = b := by
  cases a <;> cases b <;> first | rfl | exact absurd h (by decide)

theorem normalize_toStr (ct : ContentType) :
    normalizeContentType (some ct.toStr) = ct := by
  cases ct <;> decide

/-- Every produced chunk carries its item's identity fields and the item
hash. -/
theorem buildChunks_fields (cfg : IndexerConfig) (post : GhostPost) (ct : ContentType)
    (c : PostChunk) (hc : c ∈ (buildChunksAndHash cfg post ct).1) :
    c.post_slug = post.slug ∧ c.post_id = post.id ∧ c.content_type = ct
      ∧ c.updated_at = post.updated_at ∧ c.content_hash = some (itemHash cfg post) := by
  unfold buildChunksAndHash at hc
  by_cases he : (chunksTextOf cfg post).isEmpty
  · rw [if_pos he] at hc
    simp at hc
  · rw [if_neg he] at hc
    simp only [List.mem_filterMap] at hc
    obtain ⟨it, _, hit⟩ := hc
    by_cases hs : (pyStrip it.2).isEmpty
    · rw [if_pos hs] at hit
      exact absurd hit (by simp)
    · rw [if_neg hs] at hit
      rw [← Option.some.inj hit]
      exact ⟨rfl, rfl, rfl, rfl, rfl⟩

/-- The produced hash is the item hash. -/
theorem buildChunks_hash (cfg : IndexerConfig) (post : GhostPost) (ct : ContentType)
    (hne : (buildChunksAndHash cfg post ct).1.isEmpty = false) :
    (buildChunksAndHash cfg post ct).2 = some (itemHash cfg post) := by
  unfold buildChunksAndHash at hne ⊢
  by_cases he : (chunksTextOf cfg post).isEmpty
  · rw [if_pos he] at hne
    simp at hne
  · rw [if_neg he]
    rfl

/-- The chunk indices of the produced chunks are pairwise distinct. -/
theorem buildChunks_idx_nodup (cfg : IndexerConfig) (post : GhostPost) (ct : ContentType) :
    ((buildChunksAndHash cfg post ct).1.map (fun c => c.chunk_index)).Nodup := by
  unfold buildChunksAndHash
  by_cases he : (chunksTextOf cfg post).isEmpty
  · rw [if_pos he]
    simp
  · rw [if_neg he]
    simp only [List.map_filterMap]
    have henum : ((chunksTextOf cfg post).enum.map Prod.fst).Nodup := by
      rw [List.enum_map_fst]
      exact List.nodup_range _
    have hpair := List.pairwise_map.mp henum
    have hsub : ∀ l : List (Nat × String),
        l.Pairwise (fun a b => a.1 ≠ b.1) →
        (l.filterMap (fun it =>
          Option.map (fun c : PostChunk => c.chunk_index)
            (if (pyStrip it.2).isEmpty = true then none
             else some
               { post_id := post.id, post_slug := post.slug, post_title := post.title,
                 post_url := postUrlOf cfg post, chunk_text := it.2, chunk_index := it.1,
                 total_chunks := (chunksTextOf cfg post).length, content_type := ct,
                 content_hash := some (cfg.hashFn ("\n\n".intercalate (chunksTextOf cfg post))),
                 published_at := post.published_at, updated_at := post.updated_at,
                 tags := tagNames post.tags, authors := tagNames post.authors }))).Nodup := by
      intro l
      induction l with
      | nil =>
        intro _
        simp
      | cons hd tl ih =>
        intro hp
        rw [List.filterMap_cons]
        by_cases hs : (pyStrip hd.2).isEmpty
        · rw [if_pos hs]
          exact ih hp.of_cons
        · rw [if_neg hs]
          simp only [Option.map_some']
          refine List.nodup_cons.mpr ⟨?_, ih hp.of_cons⟩
          intro hmem
          simp only [List.mem_filterMap] at hmem
          obtain ⟨b, hb, hbeq⟩ := hmem
          by_cases hs2 : (pyStrip b.2).isEmpty
          · rw [if_pos hs2] at hbeq
            exact absurd hbeq (by simp)
          · rw [if_neg hs2] at hbeq
            simp only [Option.map_some', Option.some.injEq] at hbeq
            exact (List.rel_of_pairwise_cons hp hb) hbeq.symm
    exact hsub _ hpair

/-- The produced chunk ids are pairwise distinct. -/
theorem buildChunks_ids_nodup (cfg : IndexerConfig) (post : GhostPost) (ct : ContentType) :
    ((buildChunksAndHash cfg post ct).1.map chunkId).Nodup := by
  have hidx := buildChunks_idx_nodup cfg post ct
  have hpair := List.pairwise_map.mp hidx
  refine List.pairwise_map.mpr (hpair.imp ?_)
  intro a b hab hcid
  exact hab (congrArg (fun i : ChunkId => i.2.2) hcid)

/-- Which new-item entry (if any) the classification loop produces for an
item. -/
def newSel (cfg : IndexerConfig) (snap : List ((String × ContentType) × SnapshotEntry))
    (it : GhostPost × ContentType) : Option (GhostPost × ContentType × List PostChunk) :=
  if (buildChunksAndHash cfg it.1 it.2).1.isEmpty then none
  else if (snapLookup snap (it.1.slug, it.2)).isSome = false then
    some (it.1, it.2, (buildChunksAndHash cfg it.1 it.2).1)
  else none

/-- Which updated-item entry (if any) the classification loop produces for an
item. -/
def updSel (cfg : IndexerConfig) (snap : List ((String × ContentType) × SnapshotEntry))
    (it : GhostPost × ContentType) : Option (GhostPost × ContentType × List PostChunk) :=
  if (buildChunksAndHash cfg it.1 it.2).1.isEmpty then none
  else if (snapLookup snap (it.1.slug, it.2)).isSome = false then none
  else if (buildChunksAndHash cfg it.1 it.2).2
        ≠ ((snapLookup snap (it.1.slug, it.2)).getD default).content_hash
      || tsNewer it.1.updated_at
        ((snapLookup snap (it.1.slug, it.2)).getD default).updated_at then
    some (it.1, it.2, (buildChunksAndHash cfg it.1 it.2).1)
  else none

/-- Field characterization of a single classification step. -/
theorem classifyStep_fields (cfg : IndexerConfig)
    (snap : List ((String × ContentType) × SnapshotEntry)) (st : ClassifyState)
    (it : GhostPost × ContentType) :
    (classifyStep cfg snap st it).newItems = st.newItems ++ (newSel cfg snap it).toList
    ∧ (classifyStep cfg snap st it).updatedItems
        = st.updatedItems ++ (updSel cfg snap it).toList
    ∧ (classifyStep cfg snap st it).currentKeys = st.currentKeys ++ [itemKey it] := by
  unfold classifyStep newSel updSel
  by_cases hb : (buildChunksAndHash cfg it.1 it.2).1.isEmpty
  · rw [if_pos hb, if_pos hb, if_pos hb]
    by_cases hl : (snapLookup snap (it.1.slug, it.2)).isSome
    · rw [if_pos hl]
      exact ⟨by simp, by simp, rfl⟩
    · rw [if_neg hl]
      exact ⟨by simp, by simp, rfl⟩
  · rw [if_neg hb, if_neg hb, if_neg hb]
    by_cases hl : (snapLookup snap (it.1.slug, it.2)).isSome = false
    · rw [if_pos hl, if_pos hl, if_pos hl]
      exact ⟨by simp, by simp, rfl⟩
    · rw [if_neg hl, if_neg hl, if_neg hl]
      by_cases hcond : ((buildChunksAndHash cfg it.1 it.2).2
            ≠ ((snapLookup snap (it.1.slug, it.2)).getD default).content_hash
          || tsNewer it.1.updated_at
            ((snapLookup snap (it.1.slug, it.2)).getD default).updated_at) = true
      · rw [if_pos hcond, if_pos hcond]
        exact ⟨by simp, rfl, rfl⟩
      · rw [if_neg hcond, if_neg hcond]
        exact ⟨by simp, by simp, rfl⟩

/-- Field characteristics of the whole classification loop: the new/updated
lists and current keys depend only on the items and the snapshot. -/
theorem classify_fold_fields (cfg : IndexerConfig)
    (snap : List ((String × ContentType) × SnapshotEntry))
    (items : List (GhostPost × ContentType)) :
    ∀ st : ClassifyState,
      (items.foldl (classifyStep cfg snap) st).newItems
          = st.newItems ++ items.filterMap (newSel cfg snap)
      ∧ (items.foldl (classifyStep cfg snap) st).updatedItems
          = st.updatedItems ++ items.filterMap (updSel cfg snap)
      ∧ (items.foldl (classifyStep cfg snap) st).currentKeys
          = st.currentKeys ++ items.map itemKey := by
  induction items with
  | nil =>
    intro st
    simp
  | cons it rest ih =>
    intro st
    rw [List.foldl_cons]
    obtain ⟨h1, h2, h3⟩ := ih (classifyStep cfg snap st it)
    obtain ⟨s1, s2, s3⟩ := classifyStep_fields cfg snap st it
    refine ⟨?_, ?_, ?_⟩
    · rw [h1, s1, List.filterMap_cons]
      cases newSel cfg snap it <;> simp
    · rw [h2, s2, List.filterMap_cons]
      cases updSel cfg snap it <;> simp
    · rw [h3, s3, List.map_cons]
      simp

/-- Every op emitted by `delete_post` is the delete for its where-clause. -/
theorem deletePost_ops (s : Store) (slug : String) (ct : Option String) :
    ∀ op ∈ (deletePost s slug ct).2, ∃ ids, op = .deleteOp slug ct ids := by
  unfold deletePost
  by_cases h : (deleteIds s slug ct).isEmpty
  · rw [if_pos h]
    simp
  · rw [if_neg h]
    intro op hop
    simp only [List.mem_singleton] at hop
    exact ⟨deleteIds s slug ct, hop⟩

/-- Store/ops effect of a single classification step: either untouched, or
the item hit the empty-chunks-and-indexed case and its key was deleted. -/
theorem classifyStep_effect (cfg : IndexerConfig)
    (snap : List ((String × ContentType) × SnapshotEntry)) (st : ClassifyState)
    (it : GhostPost × ContentType) :
    ((classifyStep cfg snap st it).store = st.store
        ∧ (classifyStep cfg snap st it).ops = st.ops)
    ∨ ((buildChunksAndHash cfg it.1 it.2).1.isEmpty = true
        ∧ (snapLookup snap (it.1.slug, it.2)).isSome = true
        ∧ (classifyStep cfg snap st it).store
            = (deletePost st.store it.1.slug (some it.2.toStr)).1
        ∧ (classifyStep cfg snap st it).ops
            = st.ops ++ (deletePost st.store it.1.slug (some it.2.toStr)).2) := by
  unfold classifyStep
  by_cases hb : (buildChunksAndHash cfg it.1 it.2).1.isEmpty
  · by_cases hl : (snapLookup snap (it.1.slug, it.2)).isSome
    · right
      exact ⟨hb, hl, by simp [hb, hl], by simp [hb, hl]⟩
    · left
      exact ⟨by simp [hb, hl], by simp [hb, hl]⟩
  · left
    rw [if_neg hb]
    by_cases hl : (snapLookup snap (it.1.slug, it.2)).isSome = false
    · rw [if_pos hl]
      exact ⟨rfl, rfl⟩
    · rw [if_neg hl]
      by_cases hcond : ((buildChunksAndHash cfg it.1 it.2).2
            ≠ ((snapLookup snap (it.1.slug, it.2)).getD default).content_hash
          || tsNewer it.1.updated_at
            ((snapLookup snap (it.1.slug, it.2)).getD default).updated_at) = true
      · rw [if_pos hcond]
        exact ⟨rfl, rfl⟩
      · rw [if_neg hcond]
        exact ⟨rfl, rfl⟩

/-- Ops of the classification loop: anything beyond the initial ops is a
delete for the key of one of the items. -/
theorem classify_fold_ops (cfg : IndexerConfig)
    (snap : List ((String × ContentType) × SnapshotEntry))
    (items : List (GhostPost × ContentType)) (P : StoreOp → Prop) :
    ∀ st : ClassifyState,
      (∀ op ∈ st.ops, P op) →
      (∀ it ∈ items, ∀ ids, P (.deleteOp it.1.slug (some it.2.toStr) ids)) →
      ∀ op ∈ (items.foldl (classifyStep cfg snap) st).ops, P op := by
  induction items with
  | nil =>
    intro st hst _
    exact hst
  | cons it rest ih =>
    intro st hst hdel
    rw [List.foldl_cons]
    refine ih (classifyStep cfg snap st it) ?_
      (fun y hy => hdel y (List.mem_cons_of_mem it hy))
    intro op hop
    rcases classifyStep_effect cfg snap st it with ⟨_, ho⟩ | ⟨_, _, _, ho⟩
    · exact hst op (ho ▸ hop)
    · rw [ho] at hop
      rcases List.mem_append.mp hop with hop2 | hop2
      · exact hst op hop2
      · obtain ⟨ids, rfl⟩ := deletePost_ops st.store it.1.slug (some it.2.toStr) op hop2
        exact hdel it (List.mem_cons_self it rest) ids

/-- When no item hits the empty-chunks-and-indexed case, the classification
loop leaves the store and the ops untouched. -/
theorem classify_fold_silent (cfg : IndexerConfig)
    (snap : List ((String × ContentType) × SnapshotEntry))
    (items : List (GhostPost × ContentType)) :
    ∀ st : ClassifyState,
      (∀ it ∈ items, (buildChunksAndHash cfg it.1 it.2).1.isEmpty = true →
        (snapLookup snap (it.1.slug, it.2)).isSome = false) →
      (items.foldl (classifyStep cfg snap) st).store = st.store
        ∧ (items.foldl (classifyStep cfg snap) st).ops = st.ops := by
  induction items with
  | nil =>
    intro st _
    exact ⟨rfl, rfl⟩
  | cons it rest ih =>
    intro st hcond
    rw [List.foldl_cons]
    have hstep : (classifyStep cfg snap st it).store = st.store
        ∧ (classifyStep cfg snap st it).ops = st.ops := by
      rcases classifyStep_effect cfg snap st it with ⟨hs, ho⟩ | ⟨hb, hl, _, _⟩
      · exact ⟨hs, ho⟩
      · rw [hcond it (List.mem_cons_self it rest) hb] at hl
        exact absurd hl Bool.false_ne_true
    obtain ⟨hs, ho⟩ := ih (classifyStep cfg snap st it)
      (fun y hy => hcond y (List.mem_cons_of_mem it hy))
    exact ⟨hs.trans hstep.1, ho.trans hstep.2⟩

/-- A where-clause misses a record with a different key. -/
theorem matchesWhere_false_of_key (slug : String) (ct : ContentType) (x : StoredChunk)
    (h : ¬(x.post_slug = slug ∧ x.content_type = ct.toStr)) :
    matchesWhere slug (some ct.toStr) x = false := by
  unfold matchesWhere
  by_cases h1 : x.post_slug = slug
  · by_cases h2 : x.content_type = ct.toStr
    · exact absurd ⟨h1, h2⟩ h
    · simp [h2]
  · simp [h1]

/-- `delete_post` is a no-op when nothing matches. -/
theorem deletePost_nomatch (s : Store) (slug : String) (ct : Option String)
    (h : ∀ x ∈ s, matchesWhere slug ct x = false) :
    deletePost s slug ct = (s, []) := by
  have hids : deleteIds s slug ct = [] := by
    unfold deleteIds
    rw [List.filter_eq_nil_iff.mpr (by intro x hx; simp [h x hx])]
    rfl
  unfold deletePost
  rw [hids]
  rfl

/-- Chroma `upsert` of a record with a fresh id appends. -/
theorem upsertOne_fresh (s : Store) (c : StoredChunk) (h : ∀ x ∈ s, x.cid ≠ c.cid) :
    upsertOne s c = s ++ [c] := by
  unfold upsertOne
  rw [if_neg (by
    intro hany
    obtain ⟨x, hx, heq⟩ := List.any_eq_true.mp hany
    exact h x hx (by simpa using heq))]

/-- Upserting a batch of all-fresh, pairwise-distinct ids appends the batch. -/
theorem upsert_fold_fresh (cs : List PostChunk) :
    ∀ s : Store,
      (∀ c ∈ cs, ∀ x ∈ s, x.cid ≠ chunkId c) →
      (cs.map chunkId).Nodup →
      (cs.map toStored).foldl upsertOne s = s ++ cs.map toStored := by
  induction cs with
  | nil =>
    intro s _ _
    simp
  | cons c cs ih =>
    intro s hfresh hnodup
    simp only [List.map_cons, List.foldl_cons]
    rw [upsertOne_fresh s (toStored c)
      (fun x hx => hfresh c (List.mem_cons_self c cs) x hx)]
    rw [ih (s ++ [toStored c]) ?_ (List.nodup_cons.mp (by simpa using hnodup)).2]
    · simp
    · intro c2 hc2 x hx
      rcases List.mem_append.mp hx with hx | hx
      · exact hfresh c2 (List.mem_cons_of_mem c hc2) x hx
      · rw [List.mem_singleton.mp hx]
        show chunkId c ≠ chunkId c2
        intro heq
        exact (List.nodup_cons.mp (by simpa using hnodup)).1
          (heq ▸ List.mem_map_of_mem chunkId hc2)

/-- `upsert_chunks` on a non-empty batch of fresh ids appends and records one
upsert op. -/
theorem upsertChunks_fresh (s : Store) (cs : List PostChunk)
    (hne : cs.isEmpty = false)
    (hfresh : ∀ c ∈ cs, ∀ x ∈ s, x.cid ≠ chunkId c)
    (hnodup : (cs.map chunkId).Nodup) :
    upsertChunks s cs = (s ++ cs.map toStored, [.upsertOp (cs.map chunkId)]) := by
  unfold upsertChunks
  rw [if_neg (by simp [hne])]
  rw [upsert_fold_fresh cs s hfresh hnodup]

/-- The stored records of one indexed item. -/
def storedOf (y : GhostPost × ContentType × List PostChunk) : Store :=
  y.2.2.map toStored

/-- The snapshot entry a freshly indexed item leaves behind. -/
def snapEntryOf (cfg : IndexerConfig) (post : GhostPost) : SnapshotEntry :=
  { updated_at := post.updated_at, content_hash := some (itemHash cfg post) }

/-- The upsert phase over a batch of items whose keys and ids are disjoint
from the store and from each other appends each item's records in order. -/
theorem indexPost_fold_append (L : List (GhostPost × ContentType × List PostChunk)) :
    ∀ (s : Store) (ops : List StoreOp),
      (∀ y ∈ L, ∀ x ∈ s, matchesWhere y.1.slug (some y.2.1.toStr) x = false) →
      (∀ y ∈ L, ∀ c ∈ y.2.2, ∀ x ∈ s, x.cid ≠ chunkId c) →
      L.Pairwise (fun a b =>
        (a.1.slug, a.2.1) ≠ (b.1.slug, b.2.1) ∧ (a.2.1, a.1.id) ≠ (b.2.1, b.1.id)) →
      (∀ y ∈ L, ∀ c ∈ y.2.2, c.post_slug = y.1.slug ∧ c.post_id = y.1.id
        ∧ c.content_type = y.2.1) →
      (∀ y ∈ L, (y.2.2.map chunkId).Nodup) →
      (∀ y ∈ L, y.2.2.isEmpty = false) →
      L.foldl indexPost (s, ops) =
        (s ++ L.flatMap storedOf,
          ops ++ L.map (fun y => .upsertOp (y.2.2.map chunkId))) := by
  induction L with
  | nil =>
    intro s ops _ _ _ _ _ _
    simp
  | cons y L ih =>
    intro s ops hmatch hfresh hpair hfields hnodup hne
    rw [List.foldl_cons]
    have hdel : deletePost s y.1.slug (some y.2.1.toStr) = (s, []) :=
      deletePost_nomatch s _ _ (fun x hx => hmatch y (List.mem_cons_self y L) x hx)
    have hup : upsertChunks s y.2.2 = (s ++ y.2.2.map toStored, [.upsertOp (y.2.2.map chunkId)]) :=
      upsertChunks_fresh s y.2.2 (hne y (List.mem_cons_self y L))
        (fun c hc x hx => hfresh y (List.mem_cons_self y L) c hc x hx)
        (hnodup y (List.mem_cons_self y L))
    have hstep : indexPost (s, ops) y =
        (s ++ y.2.2.map toStored, ops ++ [.upsertOp (y.2.2.map chunkId)]) := by
      unfold indexPost
      rw [hdel]
      rw [hup]
      simp
    rw [hstep]
    have hmatch2 : ∀ z ∈ L, ∀ x ∈ s ++ y.2.2.map toStored,
        matchesWhere z.1.slug (some z.2.1.toStr) x = false := by
      intro z hz x hx
      rcases List.mem_append.mp hx with hx | hx
      · exact hmatch z (List.mem_cons_of_mem y hz) x hx
      · obtain ⟨c, hc, rfl⟩ := List.mem_map.mp hx
        obtain ⟨hcs, _, hct⟩ := hfields y (List.mem_cons_self y L) c hc
        refine matchesWhere_false_of_key _ _ _ ?_
        intro hcontra
        have hkey : (y.1.slug, y.2.1) = (z.1.slug, z.2.1) := by
          have h1 : c.post_slug = z.1.slug := hcontra.1
          have h2 : (toStored c).content_type = z.2.1.toStr := hcontra.2
          have h3 : (toStored c).content_type = y.2.1.toStr := by
            show c.content_type.toStr = y.2.1.toStr
            rw [hct]
          have h4 : y.2.1 = z.2.1 := toStr_inj _ _ (h3 ▸ h2)
          rw [← h1, hcs, h4]
        exact ((List.rel_of_pairwise_cons hpair hz).1) hkey
    have hfresh2 : ∀ z ∈ L, ∀ c2 ∈ z.2.2, ∀ x ∈ s ++ y.2.2.map toStored,
        x.cid ≠ chunkId c2 := by
      intro z hz c2 hc2 x hx
      rcases List.mem_append.mp hx with hx | hx
      · exact hfresh z (List.mem_cons_of_mem y hz) c2 hc2 x hx
      · obtain ⟨c, hc, rfl⟩ := List.mem_map.mp hx
        obtain ⟨_, hcid, hct⟩ := hfields y (List.mem_cons_self y L) c hc
        obtain ⟨_, hcid2, hct2⟩ := hfields z (List.mem_cons_of_mem y hz) c2 hc2
        show chunkId c ≠ chunkId c2
        intro heq
        have h1 : c.content_type.toStr = c2.content_type.toStr := congrArg (fun i : ChunkId => i.1) heq
        have h2 : c.post_id = c2.post_id := congrArg (fun i : ChunkId => i.2.1) heq
        refine ((List.rel_of_pairwise_cons hpair hz).2) ?_
        rw [Prod.ext_iff]
        refine ⟨toStr_inj _ _ ?_, ?_⟩
        · rw [← hct, ← hct2]
          exact h1
        · rw [← hcid, ← hcid2]
          exact h2
    have hrec := ih (s ++ y.2.2.map toStored)
      (ops ++ [StoreOp.upsertOp (y.2.2.map chunkId)]) hmatch2 hfresh2
      hpair.of_cons (fun z hz => hfields z (List.mem_cons_of_mem y hz))
      (fun z hz => hnodup z (List.mem_cons_of_mem y hz))
      (fun z hz => hne z (List.mem_cons_of_mem y hz))
    rw [hrec]
    simp [storedOf]

/-- Records whose key is already snapshotted add nothing. -/
theorem snapshot_block_present (cs : List StoredChunk) (key : String × ContentType) :
    ∀ acc, (∀ c ∈ cs, chunkSnapKey c = key) →
      (acc.any (fun kv => kv.1 == key)) = true →
      cs.foldl snapshotStep acc = acc := by
  induction cs with
  | nil =>
    intro acc _ _
    rfl
  | cons c cs ih =>
    intro acc hkeys hany
    rw [List.foldl_cons]
    have hstep : snapshotStep acc c = acc := by
      unfold snapshotStep
      by_cases hs : (pyStrip c.post_slug).isEmpty
      · rw [if_pos hs]
      · rw [if_neg hs, if_pos (by rw [hkeys c (List.mem_cons_self c cs)]; exact hany)]
    rw [hstep]
    exact ih acc (fun x hx => hkeys x (List.mem_cons_of_mem c hx)) hany

/-- A non-empty block of records sharing one clean, unseen key adds exactly
that key's first-record entry. -/
theorem snapshot_block (cs : List StoredChunk) (key : String × ContentType) (e : SnapshotEntry)
    (acc : List ((String × ContentType) × SnapshotEntry))
    (hk : ∀ c ∈ cs, chunkSnapKey c = key ∧ chunkSnapEntry c = e
      ∧ (pyStrip c.post_slug).isEmpty = false)
    (hne : cs.isEmpty = false)
    (hany : (acc.any (fun kv => kv.1 == key)) = false) :
    cs.foldl snapshotStep acc = acc ++ [(key, e)] := by
  cases cs with
  | nil => simp at hne
  | cons c cs =>
    rw [List.foldl_cons]
    obtain ⟨hk1, he1, hs1⟩ := hk c (List.mem_cons_self c cs)
    have hstep : snapshotStep acc c = acc ++ [(key, e)] := by
      unfold snapshotStep
      rw [if_neg (by rw [hs1]; exact Bool.false_ne_true), hk1,
        if_neg (by rw [hany]; exact Bool.false_ne_true), he1]
    rw [hstep]
    exact snapshot_block_present cs key _
      (fun x hx => (hk x (List.mem_cons_of_mem c hx)).1)
      (by rw [List.any_append]; simp)

/-- Snapshotting the concatenated stored blocks of items with pairwise
distinct, clean keys yields one entry per item, in order. -/
theorem snapshot_flatMap (cfg : IndexerConfig)
    (L : List (GhostPost × ContentType × List PostChunk)) :
    ∀ acc,
      (∀ y ∈ L, y.2.2.isEmpty = false
        ∧ (∀ c ∈ y.2.2, chunkSnapKey (toStored c) = (y.1.slug, y.2.1)
            ∧ chunkSnapEntry (toStored c) = snapEntryOf cfg y.1
            ∧ (pyStrip (toStored c).post_slug).isEmpty = false)) →
      L.Pairwise (fun a b => (a.1.slug, a.2.1) ≠ (b.1.slug, b.2.1)) →
      (∀ y ∈ L, (acc.any (fun kv => kv.1 == (y.1.slug, y.2.1))) = false) →
      (L.flatMap storedOf).foldl snapshotStep acc
        = acc ++ L.map (fun y => ((y.1.slug, y.2.1), snapEntryOf cfg y.1)) := by
  induction L with
  | nil =>
    intro acc _ _ _
    simp
  | cons y L ih =>
    intro acc hitems hpair hany
    rw [List.flatMap_cons, List.foldl_append]
    have hbne : (storedOf y).isEmpty = false := by
      unfold storedOf
      cases h2 : y.2.2 with
      | nil =>
        have := (hitems y (List.mem_cons_self y L)).1
        rw [h2] at this
        simp at this
      | cons a l => simp
    have hblk := snapshot_block (storedOf y) (y.1.slug, y.2.1) (snapEntryOf cfg y.1) acc
      (by
        intro c' hc'
        obtain ⟨c, hc, rfl⟩ := List.mem_map.mp hc'
        exact (hitems y (List.mem_cons_self y L)).2 c hc)
      hbne (hany y (List.mem_cons_self y L))
    rw [hblk]
    rw [ih (acc ++ [((y.1.slug, y.2.1), snapEntryOf cfg y.1)])
      (fun z hz => hitems z (List.mem_cons_of_mem y hz))
      hpair.of_cons
      (by
        intro z hz
        rw [List.any_append]
        rw [hany z (List.mem_cons_of_mem y hz)]
        have hne : (y.1.slug, y.2.1) ≠ (z.1.slug, z.2.1) := List.rel_of_pairwise_cons hpair hz
        simp [hne])]
    simp

/-- Lookup in the per-item snapshot of an indexed item. -/
theorem snapLookup_map_mem (cfg : IndexerConfig)
    (L : List (GhostPost × ContentType × List PostChunk)) :
    ∀ (y : GhostPost × ContentType × List PostChunk), y ∈ L →
      (L.map (fun z => (z.1.slug, z.2.1))).Nodup →
      snapLookup (L.map (fun z => ((z.1.slug, z.2.1), snapEntryOf cfg z.1))) (y.1.slug, y.2.1)
        = some (snapEntryOf cfg y.1) := by
  induction L with
  | nil =>
    intro y h _
    simp at h
  | cons z L ih =>
    intro y hmem hkeys
    rcases List.mem_cons.mp hmem with rfl | hmem2
    · unfold snapLookup
      rw [List.map_cons, List.find?_cons_of_pos _ (by simp)]
      rfl
    · rw [List.map_cons] at hkeys
      obtain ⟨hnotin, hnd⟩ := List.nodup_cons.mp hkeys
      have hzk : (z.1.slug, z.2.1) ≠ (y.1.slug, y.2.1) := by
        intro heq
        exact hnotin (heq ▸ List.mem_map_of_mem _ hmem2)
      unfold snapLookup
      rw [List.map_cons, List.find?_cons_of_neg _ (by simp [hzk])]
      exact ih y hmem2 hnd

/-- A key absent from the snapshot looks up to `none`. -/
theorem snapLookup_none_of (snap : List ((String × ContentType) × SnapshotEntry))
    (k : String × ContentType) (h : ∀ kv ∈ snap, kv.1 ≠ k) :
    snapLookup snap k = none := by
  unfold snapLookup
  rw [List.find?_eq_none.mpr (by intro kv hkv; simp [h kv hkv])]
  rfl

/-- The items the first pass indexes (those whose chunking yields chunks),
with their chunks. -/
def itemSel (cfg : IndexerConfig) (it : GhostPost × ContentType) :
    Option (GhostPost × ContentType × List PostChunk) :=
  if (buildChunksAndHash cfg it.1 it.2).1.isEmpty then none
  else some (it.1, it.2, (buildChunksAndHash cfg it.1 it.2).1)

theorem itemSel_some (cfg : IndexerConfig) (it : GhostPost × ContentType)
    (y : GhostPost × ContentType × List PostChunk) (h : itemSel cfg it = some y) :
    y.1 = it.1 ∧ y.2.1 = it.2 ∧ y.2.2 = (buildChunksAndHash cfg it.1 it.2).1
      ∧ y.2.2.isEmpty = false := by
  unfold itemSel at h
  by_cases hb : (buildChunksAndHash cfg it.1 it.2).1.isEmpty
  · rw [if_pos hb] at h
    simp at h
  · rw [if_neg hb] at h
    obtain rfl := Option.some.inj h
    exact ⟨rfl, rfl, rfl, by simpa using hb⟩

theorem newSel_nil (cfg : IndexerConfig) (it : GhostPost × ContentType) :
    newSel cfg [] it = itemSel cfg it := rfl

theorem updSel_nil (cfg : IndexerConfig) (it : GhostPost × ContentType) :
    updSel cfg [] it = none := by
  unfold updSel
  by_cases hb : (buildChunksAndHash cfg it.1 it.2).1.isEmpty
  · rw [if_pos hb]
  · rw [if_neg hb]
    rfl

theorem tsNewer_self (a : Option Int) : tsNewer a a = false := by
  cases a <;> simp [tsNewer]

theorem isEmpty_false_of_ne (s : String) (h : s ≠ "") : s.isEmpty = false := by
  cases he : s.isEmpty
  · rfl
  · exact absurd ((String.isEmpty_iff s).mp he) h

/-- After a first pass over a clean, duplicate-free item list against the
empty store, the store holds exactly each chunked item's records in order,
and its snapshot is one entry per chunked item with that item's hash and
timestamp. -/
theorem pass1_characterization (cfg : IndexerConfig)
    (items : List (GhostPost × ContentType))
    (hkeys : (items.map itemKey).Nodup)
    (hids : (items.map (fun it => (it.2, it.1.id))).Nodup)
    (hslug : ∀ it ∈ items, pyStrip it.1.slug = it.1.slug ∧ it.1.slug ≠ "")
    (hhash : ∀ s, pyStrip (cfg.hashFn s) = cfg.hashFn s ∧ cfg.hashFn s ≠ "") :
    (indexAllPosts cfg items []).store
        = (items.filterMap (itemSel cfg)).flatMap storedOf
    ∧ snapshotOf (indexAllPosts cfg items []).store
        = (items.filterMap (itemSel cfg)).map
            (fun y => ((y.1.slug, y.2.1), snapEntryOf cfg y.1)) := by
  have horigin : ∀ y ∈ items.filterMap (itemSel cfg),
      ∃ it ∈ items, y.1 = it.1 ∧ y.2.1 = it.2
        ∧ y.2.2 = (buildChunksAndHash cfg it.1 it.2).1 ∧ y.2.2.isEmpty = false := by
    intro y hy
    obtain ⟨it, hit, hsel⟩ := List.mem_filterMap.mp hy
    exact ⟨it, hit, itemSel_some cfg it y hsel⟩
  have hLpair : (items.filterMap (itemSel cfg)).Pairwise (fun a b =>
      (a.1.slug, a.2.1) ≠ (b.1.slug, b.2.1) ∧ (a.2.1, a.1.id) ≠ (b.2.1, b.1.id)) := by
    refine List.pairwise_filterMap.mpr ?_
    refine ((List.pairwise_map.mp hkeys).and (List.pairwise_map.mp hids)).imp ?_
    intro a b hab x hx y hy
    obtain ⟨hx1, hx2, _, _⟩ := itemSel_some cfg a x hx
    obtain ⟨hy1, hy2, _, _⟩ := itemSel_some cfg b y hy
    constructor
    · rw [hx1, hx2, hy1, hy2]
      exact hab.1
    · rw [hx1, hx2, hy1, hy2]
      exact hab.2
  have hLfields : ∀ y ∈ items.filterMap (itemSel cfg), ∀ c ∈ y.2.2,
      c.post_slug = y.1.slug ∧ c.post_id = y.1.id ∧ c.content_type = y.2.1
        ∧ c.updated_at = y.1.updated_at ∧ c.content_hash = some (itemHash cfg y.1) := by
    intro y hy c hc
    obtain ⟨it, _, h1, h2, h3, _⟩ := horigin y hy
    rw [h3] at hc
    obtain ⟨f1, f2, f3, f4, f5⟩ := buildChunks_fields cfg it.1 it.2 c hc
    rw [h1, h2]
    exact ⟨f1, f2, f3, f4, f5⟩
  have hLnodup : ∀ y ∈ items.filterMap (itemSel cfg), (y.2.2.map chunkId).Nodup := by
    intro y hy
    obtain ⟨it, _, _, _, h3, _⟩ := horigin y hy
    rw [h3]
    exact buildChunks_ids_nodup cfg it.1 it.2
  have hLne : ∀ y ∈ items.filterMap (itemSel cfg), y.2.2.isEmpty = false := by
    intro y hy
    obtain ⟨it, _, _, _, _, h4⟩ := horigin y hy
    exact h4
  have hsnil : snapshotOf ([] : Store) = [] := rfl
  have hclass := classify_fold_fields cfg (snapshotOf ([] : Store)) items
    { store := [], ops := [], newItems := [], updatedItems := [], currentKeys := [] }
  have hsilent := classify_fold_silent cfg (snapshotOf ([] : Store)) items
    { store := [], ops := [], newItems := [], updatedItems := [], currentKeys := [] }
    (by intro it _ _; rfl)
  have hnew : (items.foldl (classifyStep cfg (snapshotOf ([] : Store)))
      { store := [], ops := [], newItems := [], updatedItems := [], currentKeys := [] }).newItems
      = items.filterMap (itemSel cfg) := by
    rw [hclass.1, hsnil, List.filterMap_congr (fun it _ => newSel_nil cfg it)]
    simp
  have hupd : (items.foldl (classifyStep cfg (snapshotOf ([] : Store)))
      { store := [], ops := [], newItems := [], updatedItems := [], currentKeys := [] }).updatedItems
      = [] := by
    rw [hclass.2.1, hsnil, List.filterMap_congr (fun it _ => updSel_nil cfg it)]
    simp
  have hfold := indexPost_fold_append (items.filterMap (itemSel cfg)) [] []
    (by intro y _ x hx; simp at hx)
    (by intro y _ c _ x hx; simp at hx)
    hLpair
    (fun y hy c hc => ⟨(hLfields y hy c hc).1, (hLfields y hy c hc).2.1, (hLfields y hy c hc).2.2.1⟩)
    hLnodup hLne
  have hstore : (indexAllPosts cfg items []).store
      = (items.filterMap (itemSel cfg)).flatMap storedOf := by
    simp only [indexAllPosts]
    rw [hnew, hupd, hsilent.1, hsilent.2]
    simp only [List.append_nil, List.nil_append]
    rw [hfold]
    rw [hsnil]
    rfl
  refine ⟨hstore, ?_⟩
  rw [hstore]
  unfold snapshotOf
  rw [snapshot_flatMap cfg (items.filterMap (itemSel cfg)) []
    (by
      intro y hy
      refine ⟨hLne y hy, ?_⟩
      intro c hc
      obtain ⟨hcs, _, hct, hcu, hch⟩ := hLfields y hy c hc
      obtain ⟨it, hit, h1, _, _, _⟩ := horigin y hy
      have hslugy : pyStrip y.1.slug = y.1.slug ∧ y.1.slug ≠ "" := by
        rw [h1]
        exact hslug it hit
      have htr : optTruthy (some (itemHash cfg y.1)) = true := by
        show pyTruthy (itemHash cfg y.1) = true
        unfold pyTruthy itemHash
        rw [isEmpty_false_of_ne _ (hhash _).2]
        rfl
      refine ⟨?_, ?_, ?_⟩
      · show (pyStrip c.post_slug, normalizeContentType (some c.content_type.toStr))
            = (y.1.slug, y.2.1)
        rw [hcs, hct, hslugy.1, normalize_toStr]
      · have hu2 : (toStored c).updated_at = y.1.updated_at := hcu
        have hh2 : (toStored c).content_hash = some (itemHash cfg y.1) := by
          show (if optTruthy c.content_hash then c.content_hash else none)
              = some (itemHash cfg y.1)
          rw [hch, if_pos htr]
        unfold chunkSnapEntry snapEntryOf
        rw [hu2, hh2, if_pos htr]
        simp only [Option.getD_some]
        rw [show pyStrip (itemHash cfg y.1) = itemHash cfg y.1 from (hhash _).1]
      · show (pyStrip c.post_slug).isEmpty = false
        rw [hcs, hslugy.1]
        exact isEmpty_false_of_ne _ hslugy.2)
    (hLpair.imp (fun hab => hab.1))
    (by intro y _; rfl)]
  rfl

/-- Inverting a produced new-item entry. -/
theorem newSel_some (cfg : IndexerConfig)
    (snap : List ((String × ContentType) × SnapshotEntry))
    (it : GhostPost × ContentType) (y : GhostPost × ContentType × List PostChunk)
    (h : newSel cfg snap it = some y) :
    y = (it.1, it.2, (buildChunksAndHash cfg it.1 it.2).1)
    ∧ (buildChunksAndHash cfg it.1 it.2).1.isEmpty = false
    ∧ (snapLookup snap (it.1.slug, it.2)).isSome = false := by
  unfold newSel at h
  by_cases hb : (buildChunksAndHash cfg it.1 it.2).1.isEmpty
  · rw [if_pos hb] at h
    simp at h
  · rw [if_neg hb] at h
    by_cases hl : (snapLookup snap (it.1.slug, it.2)).isSome = false
    · rw [if_pos hl] at h
      exact ⟨(Option.some.inj h).symm, by simpa using hb, hl⟩
    · rw [if_neg hl] at h
      simp at h

/-- Inverting a produced updated-item entry. -/
theorem updSel_some (cfg : IndexerConfig)
    (snap : List ((String × ContentType) × SnapshotEntry))
    (it : GhostPost × ContentType) (y : GhostPost × ContentType × List PostChunk)
    (h : updSel cfg snap it = some y) :
    y = (it.1, it.2, (buildChunksAndHash cfg it.1 it.2).1)
    ∧ (buildChunksAndHash cfg it.1 it.2).1.isEmpty = false
    ∧ (snapLookup snap (it.1.slug, it.2)).isSome = true := by
  unfold updSel at h
  by_cases hb : (buildChunksAndHash cfg it.1 it.2).1.isEmpty
  · rw [if_pos hb] at h
    simp at h
  · rw [if_neg hb] at h
    by_cases hl : (snapLookup snap (it.1.slug, it.2)).isSome = false
    · rw [if_pos hl] at h
      simp at h
    · rw [if_neg hl] at h
      by_cases hc : ((buildChunksAndHash cfg it.1 it.2).2
            ≠ ((snapLookup snap (it.1.slug, it.2)).getD default).content_hash
          || tsNewer it.1.updated_at
            ((snapLookup snap (it.1.slug, it.2)).getD default).updated_at) = true
      · rw [if_pos hc] at h
        exact ⟨(Option.some.inj h).symm, by simpa using hb, eq_true_of_ne_false hl⟩
      · rw [if_neg hc] at h
        simp at h

/-- An item whose key is already indexed is never classified new. -/
theorem newSel_none_of_some (cfg : IndexerConfig)
    (snap : List ((String × ContentType) × SnapshotEntry))
    (it : GhostPost × ContentType)
    (hs : (snapLookup snap (it.1.slug, it.2)).isSome = true) :
    newSel cfg snap it = none := by
  unfold newSel
  by_cases hb : (buildChunksAndHash cfg it.1 it.2).1.isEmpty
  · rw [if_pos hb]
  · rw [if_neg hb, if_neg (by simp [hs])]

/-- The update decision for an item whose key is indexed with entry `e` and
whose chunking yields chunks: updated iff the hash differs or the remote
timestamp is strictly newer. -/
theorem updSel_spec (cfg : IndexerConfig)
    (snap : List ((String × ContentType) × SnapshotEntry))
    (it : GhostPost × ContentType) (e : SnapshotEntry)
    (hne : (buildChunksAndHash cfg it.1 it.2).1.isEmpty = false)
    (hlook : snapLookup snap (it.1.slug, it.2) = some e) :
    updSel cfg snap it =
      if (buildChunksAndHash cfg it.1 it.2).2 ≠ e.content_hash
          || tsNewer it.1.updated_at e.updated_at then
        some (it.1, it.2, (buildChunksAndHash cfg it.1 it.2).1)
      else none := by
  unfold updSel
  rw [if_neg (by simp [hne]), hlook, if_neg (by simp)]
  simp only [Option.getD_some]

/-- Every op emitted by `upsert_chunks` is the batch upsert. -/
theorem upsertChunks_ops (s : Store) (cs : List PostChunk) :
    ∀ op ∈ (upsertChunks s cs).2, op = .upsertOp (cs.map chunkId) := by
  unfold upsertChunks
  by_cases h : cs.isEmpty
  · rw [if_pos h]
    simp
  · rw [if_neg h]
    simp

/-- Provenance of the ops of the upsert phase: each is inherited, a delete
for one batch item's key, or that item's batch upsert. -/
theorem indexPost_fold_ops (P : StoreOp → Prop)
    (L : List (GhostPost × ContentType × List PostChunk)) :
    ∀ acc : Store × List StoreOp,
      (∀ op ∈ acc.2, P op) →
      (∀ y ∈ L, (∀ ids, P (.deleteOp y.1.slug (some y.2.1.toStr) ids))
        ∧ P (.upsertOp (y.2.2.map chunkId))) →
      ∀ op ∈ (L.foldl indexPost acc).2, P op := by
  induction L with
  | nil =>
    intro acc hacc _
    exact hacc
  | cons y rest ih =>
    intro acc hacc hP
    rw [List.foldl_cons]
    refine ih (indexPost acc y) ?_ (fun z hz => hP z (List.mem_cons_of_mem y hz))
    intro op hop
    have hop' : op ∈ acc.2 ++ (deletePost acc.1 y.1.slug (some y.2.1.toStr)).2
        ++ (upsertChunks (deletePost acc.1 y.1.slug (some y.2.1.toStr)).1 y.2.2).2 := hop
    rcases List.mem_append.mp hop' with hop1 | hop1
    · rcases List.mem_append.mp hop1 with h2 | h2
      · exact hacc op h2
      · obtain ⟨ids, rfl⟩ := deletePost_ops _ _ _ op h2
        exact (hP y (List.mem_cons_self y rest)).1 ids
    · rw [upsertChunks_ops _ _ op hop1]
      exact (hP y (List.mem_cons_self y rest)).2

/-- Provenance of the ops of the removal phase: each is inherited or a delete
for a snapshotted key with no current remote item. -/
theorem removal_fold_ops (P : StoreOp → Prop) (keys : List (String × ContentType))
    (snap : List ((String × ContentType) × SnapshotEntry)) :
    ∀ acc : Store × List StoreOp × Nat,
      (∀ op ∈ acc.2.1, P op) →
      (∀ kv ∈ snap, kv.1 ∉ keys →
        ∀ ids, P (.deleteOp kv.1.1 (some kv.1.2.toStr) ids)) →
      ∀ op ∈ (snap.foldl (removalStep keys) acc).2.1, P op := by
  induction snap with
  | nil =>
    intro acc hacc _
    exact hacc
  | cons kv rest ih =>
    intro acc hacc hP
    rw [List.foldl_cons]
    refine ih (removalStep keys acc kv) ?_ (fun z hz => hP z (List.mem_cons_of_mem kv hz))
    intro op hop
    unfold removalStep at hop
    by_cases hk : kv.1 ∈ keys
    · rw [if_pos hk] at hop
      exact hacc op hop
    · rw [if_neg hk] at hop
      have hop' : op ∈ acc.2.1 ++ (deletePost acc.1 kv.1.1 (some kv.1.2.toStr)).2 := hop
      rcases List.mem_append.mp hop' with h2 | h2
      · exact hacc op h2
      · obtain ⟨ids, rfl⟩ := deletePost_ops _ _ _ op h2
        exact hP kv (List.mem_cons_self kv rest) hk ids

/-- Provenance of the classification ops: each is inherited or a delete for
the key of an item whose chunking is empty while the key is indexed. -/
theorem classify_fold_ops2 (cfg : IndexerConfig)
    (snap : List ((String × ContentType) × SnapshotEntry))
    (items : List (GhostPost × ContentType)) (P : StoreOp → Prop) :
    ∀ st : ClassifyState,
      (∀ op ∈ st.ops, P op) →
      (∀ it ∈ items, (buildChunksAndHash cfg it.1 it.2).1.isEmpty = true →
        (snapLookup snap (it.1.slug, it.2)).isSome = true →
        ∀ ids, P (.deleteOp it.1.slug (some it.2.toStr) ids)) →
      ∀ op ∈ (items.foldl (classifyStep cfg snap) st).ops, P op := by
  induction items with
  | nil =>
    intro st hst _
    exact hst
  | cons it rest ih =>
    intro st hst hdel
    rw [List.foldl_cons]
    refine ih (classifyStep cfg snap st it) ?_
      (fun y hy => hdel y (List.mem_cons_of_mem it hy))
    intro op hop
    rcases classifyStep_effect cfg snap st it with ⟨_, ho⟩ | ⟨hb, hl, _, ho⟩
    · exact hst op (ho ▸ hop)
    · rw [ho] at hop
      rcases List.mem_append.mp hop with hop2 | hop2
      · exact hst op hop2
      · obtain ⟨ids, rfl⟩ := deletePost_ops st.store it.1.slug (some it.2.toStr) op hop2
        exact hdel it (List.mem_cons_self it rest) hb hl ids

/-- Provenance of every op of one full `index_all_posts` pass. -/
theorem indexAllPosts_ops_pred (cfg : IndexerConfig)
    (items : List (GhostPost × ContentType)) (store0 : Store) (P : StoreOp → Prop)
    (hdel1 : ∀ it ∈ items, (buildChunksAndHash cfg it.1 it.2).1.isEmpty = true →
      (snapLookup (snapshotOf store0) (it.1.slug, it.2)).isSome = true →
      ∀ ids, P (.deleteOp it.1.slug (some it.2.toStr) ids))
    (hy : ∀ y ∈ items.filterMap (newSel cfg (snapshotOf store0))
        ++ items.filterMap (updSel cfg (snapshotOf store0)),
      (∀ ids, P (.deleteOp y.1.slug (some y.2.1.toStr) ids))
        ∧ P (.upsertOp (y.2.2.map chunkId)))
    (hrdel : ∀ kv ∈ snapshotOf store0, kv.1 ∉ items.map itemKey →
      ∀ ids, P (.deleteOp kv.1.1 (some kv.1.2.toStr) ids)) :
    ∀ op ∈ (indexAllPosts cfg items store0).ops, P op := by
  have hcf := classify_fold_fields cfg (snapshotOf store0) items
    { store := store0, ops := [], newItems := [], updatedItems := [], currentKeys := [] }
  intro op hop
  simp only [indexAllPosts] at hop
  refine removal_fold_ops P _ _ _ ?_ ?_ op hop
  · refine indexPost_fold_ops P _ _ ?_ ?_
    · exact classify_fold_ops2 cfg _ items P _ (by intro o ho; simp at ho) hdel1
    · intro y hyy
      refine hy y ?_
      rw [hcf.1, hcf.2.1] at hyy
      simpa using hyy
  · intro kv hkv hnotin ids
    refine hrdel kv hkv ?_ ids
    rw [hcf.2.2] at hnotin
    simpa using hnotin

/-! ### Claim theorems -/

/-- C10: for every query whose stripped length is below 3 characters, the
`search` MCP tool returns the empty-result error payload (count 0, error
message) without proceeding to the embedding computation or store search. -/
theorem min_query_length_rejects (query : String) (limit searchTopK : Nat)
    (hshort : (pyStrip query).length < 3) :
    searchToolGate query limit searchTopK =
      .rejected (pyStrip query) [] 0 "Query must be at least 3 characters" := by
  unfold searchToolGate
  simp [hshort]

theorem min_query_length_rejects_witness :
    (pyStrip "  a ").length < 3 ∧
      searchToolGate "  a " 10 10 =
        .rejected (pyStrip "  a ") [] 0 "Query must be at least 3 characters" :=
  ⟨by decide, min_query_length_rejects "  a " 10 10 (by decide)⟩

/-- C7: no tag name starting with `#` survives the read-time public-tag
filter, hence none is present in the tags of any assembled `SearchResult`
(`_build_search_result_from_metadata`) or any `PostSummary` assembled by
`get_post_markdown`, whatever tags are stored. -/
theorem internal_tags_never_surface :
    (∀ (tags : List String) (t : String),
        t ∈ filterPublicTagNames tags → pyStartsWith t "#" = false)
    ∧ (∀ (m : RespMeta) (e : String) (s : ℚ) (t : String),
        t ∈ (buildSearchResultFromMetadata m e s).tags → pyStartsWith t "#" = false)
    ∧ (∀ (rows : List (Option String × Option RespMeta)) (slug : String)
        (ps : PostSummary) (md : Option String),
        getPostMarkdown rows slug = (some ps, md) →
          ∀ t ∈ ps.tags, pyStartsWith t "#" = false) := by
  have base : ∀ (tags : List String) (t : String),
      t ∈ filterPublicTagNames tags → pyStartsWith t "#" = false := by
    intro tags t ht
    have := List.of_mem_filter ht
    simp only [Bool.and_eq_true, Bool.not_eq_true'] at this
    exact this.2
  refine ⟨base, ?_, ?_⟩
  · intro m e s t ht
    exact base _ t ht
  · intro rows slug ps md h t ht
    unfold getPostMarkdown at h
    by_cases h1 : rows.isEmpty
    · rw [if_pos h1] at h
      exact absurd (congrArg Prod.fst h) (by simp)
    · rw [if_neg h1] at h
      by_cases h2 : (mdChunkRows rows).isEmpty
      · rw [if_pos h2] at h
        exact absurd (congrArg Prod.fst h) (by simp)
      · rw [if_neg h2] at h
        unfold assembleFromSorted at h
        have hps := Option.some.inj (congrArg Prod.fst h)
        rw [← hps] at ht
        exact base _ t ht

theorem internal_tags_never_surface_witness :
    ("ok" ∈ filterPublicTagNames ["#internal", "ok"]) ∧ pyStartsWith "ok" "#" = false :=
  ⟨by decide, internal_tags_never_surface.1 ["#internal", "ok"] "ok" (by decide)⟩

/-- C6 (counterexample): the chunker performs no index-time tag filtering —
for a post tagged `#internal` (visibility `internal`) the produced chunk's
tags list contains `#internal`, which starts with `#`. -/
theorem index_time_tag_filtering_fails :
    (buildChunksAndHash cfgFix postC6 .post).1.map PostChunk.tags = [["#internal"]]
      ∧ pyStartsWith "#internal" "#" = true := by
  constructor
  · rfl
  · decide

/-- C6 (amended): every chunk produced by the chunker carries exactly the
item's non-empty tag names, unchanged — no `#`-prefix or visibility filtering
happens before chunk metadata is built; public-tag filtering is applied only
at read time. -/
theorem chunker_keeps_all_named_tags (cfg : IndexerConfig) (post : GhostPost)
    (ct : ContentType) (c : PostChunk)
    (hc : c ∈ (buildChunksAndHash cfg post ct).1) :
    c.tags = (post.tags.filter (fun t => optTruthy t.name)).map (fun t => t.name.getD "") := by
  unfold buildChunksAndHash at hc
  by_cases he : (chunksTextOf cfg post).isEmpty
  · rw [if_pos he] at hc
    simp at hc
  · rw [if_neg he] at hc
    simp only [List.mem_filterMap] at hc
    obtain ⟨it, _, hit⟩ := hc
    by_cases hs : (pyStrip it.2).isEmpty
    · rw [if_pos hs] at hit
      exact absurd hit (by simp)
    · rw [if_neg hs] at hit
      rw [← Option.some.inj hit]
      rfl

theorem chunker_keeps_all_named_tags_witness :
    (chunkC6 ∈ (buildChunksAndHash cfgFix postC6 .post).1) ∧
      chunkC6.tags =
        (postC6.tags.filter (fun t => optTruthy t.name)).map (fun t => t.name.getD "") :=
  ⟨by decide, chunker_keeps_all_named_tags cfgFix postC6 .post chunkC6 (by decide)⟩

/-- C8 (counterexample): a content item with neither an HTML body nor a
plaintext body but a non-empty title does not chunk to `([], null)` — the
chunker emits a title chunk with a non-null content hash. -/
theorem empty_content_chunking_fails :
    (buildChunksAndHash cfgFix postC8 .post).1 ≠ []
      ∧ (buildChunksAndHash cfgFix postC8 .post).2 = some "h" := by
  constructor
  · intro h
    exact absurd (congrArg List.length h) (by decide)
  · rfl

/-- C8 (amended): for a content item with no HTML body, no plaintext body, a
falsy title and a falsy subtitle (`custom_excerpt or meta_description`), the
chunker returns the empty chunk list with a null hash, and the indexing pass
then de-indexes the key: it issues exactly the `delete_post` call for the
key's existing chunks (stated for a pass over that single item, against a
store whose snapshot only holds this key). -/
theorem empty_content_chunking_amended (cfg : IndexerConfig) (post : GhostPost)
    (ct : ContentType)
    (htitle : pyTruthy post.title = false)
    (hsub : optTruthy (pyOr post.custom_excerpt post.meta_description) = false)
    (hhtml : optTruthy post.html = false)
    (hplain : optTruthy post.plaintext = false) :
    buildChunksAndHash cfg post ct = ([], none)
      ∧ ∀ store0 : Store,
          (∀ kv ∈ snapshotOf store0, kv.1 = (post.slug, ct)) →
          (snapLookup (snapshotOf store0) (post.slug, ct)).isSome = true →
          indexAllPosts cfg [(post, ct)] store0 =
            { newItems := []
              updatedItems := []
              removedCount := 0
              ops := (deletePost store0 post.slug (some ct.toStr)).2
              store := (deletePost store0 post.slug (some ct.toStr)).1 } := by
  have hbuild : buildChunksAndHash cfg post ct = ([], none) := by
    have hct : chunksTextOf cfg post = [] := by
      have hmd : extractMarkdown cfg.mdFn post = none := by
        unfold extractMarkdown
        rw [if_neg (by simp [hhtml]), if_neg (by simp [hplain])]
      unfold chunksTextOf
      rw [hmd]
      simp [htitle, hsub, show optTruthy none = false from rfl]
    unfold buildChunksAndHash
    simp [hct]
  refine ⟨hbuild, ?_⟩
  intro store0 hsnapkeys hsome
  have hclass :
      List.foldl (classifyStep cfg (snapshotOf store0))
          { store := store0, ops := [], newItems := [], updatedItems := [],
            currentKeys := [] } [(post, ct)] =
        { store := (deletePost store0 post.slug (some ct.toStr)).1
          ops := (deletePost store0 post.slug (some ct.toStr)).2
          newItems := []
          updatedItems := []
          currentKeys := [(post.slug, ct)] } := by
    simp only [List.foldl_cons, List.foldl_nil]
    unfold classifyStep
    simp [hbuild, hsome]
  have hrem := removal_fold_noop (snapshotOf store0) [(post.slug, ct)]
    ((deletePost store0 post.slug (some ct.toStr)).1,
      (deletePost store0 post.slug (some ct.toStr)).2, 0)
    (by intro kv hkv; simp [hsnapkeys kv hkv])
  simp only [indexAllPosts, hclass, List.append_nil, List.nil_append, List.foldl_nil, hrem]

theorem empty_content_chunking_amended_witness :
    buildChunksAndHash cfgFix { postC8 with title := "" } .post = ([], none) :=
  (empty_content_chunking_amended cfgFix { postC8 with title := "" } .post
    (by decide) (by decide) (by decide) (by decide)).1

/-- Rows surviving `dedupByUrl` with a non-empty URL were not seen before. -/
theorem dedupByUrl_not_seen (l : List (Nat × RespMeta)) :
    ∀ (seen : List String), ∀ x ∈ dedupByUrl seen l,
      (x.2.post_url.getD "") ≠ "" → (x.2.post_url.getD "") ∉ seen := by
  induction l with
  | nil =>
    intro seen x hx
    simp [dedupByUrl] at hx
  | cons hd tl ih =>
    intro seen x hx hne
    obtain ⟨i, m⟩ := hd
    simp only [dedupByUrl] at hx
    by_cases hskip : (!(m.post_url.getD "").isEmpty && decide ((m.post_url.getD "") ∈ seen)) = true
    · rw [if_pos hskip] at hx
      exact ih seen x hx hne
    · rw [if_neg hskip] at hx
      rcases List.mem_cons.mp hx with rfl | hx2
      · intro hmem
        apply hskip
        simp only [Bool.and_eq_true, Bool.not_eq_true', decide_eq_true_iff]
        exact ⟨isEmpty_false_of_ne _ hne, hmem⟩
      · have := ih _ x hx2 hne
        intro hmem
        apply this
        by_cases hu : (!(m.post_url.getD "").isEmpty) = true
        · rw [if_pos hu]
          exact List.mem_append_left _ hmem
        · rw [if_neg hu]
          exact hmem

/-- `dedupByUrl` output has pairwise distinct non-empty URLs. -/
theorem dedupByUrl_pairwise (l : List (Nat × RespMeta)) :
    ∀ seen : List String,
      (dedupByUrl seen l).Pairwise (fun a b =>
        a.2.post_url.getD "" = "" ∨ b.2.post_url.getD "" = ""
          ∨ a.2.post_url.getD "" ≠ b.2.post_url.getD "") := by
  induction l with
  | nil =>
    intro seen
    simp [dedupByUrl]
  | cons hd tl ih =>
    intro seen
    obtain ⟨i, m⟩ := hd
    simp only [dedupByUrl]
    by_cases hskip : (!(m.post_url.getD "").isEmpty && decide ((m.post_url.getD "") ∈ seen)) = true
    · rw [if_pos hskip]
      exact ih seen
    · rw [if_neg hskip]
      refine List.Pairwise.cons ?_ (ih _)
      intro b hb
      by_cases hu : (m.post_url.getD "") = ""
      · exact Or.inl hu
      · by_cases hbu : (b.2.post_url.getD "") = ""
        · exact Or.inr (Or.inl hbu)
        · refine Or.inr (Or.inr ?_)
          have hseen' := dedupByUrl_not_seen tl _ b hb hbu
          rw [if_pos (by rw [isEmpty_false_of_ne _ hu]; rfl)] at hseen'
          intro heq
          exact hseen' (List.mem_append_right _ (by simp [← heq]))

/-- The assembly loop of `_parse_search_response` with `distinct_results`
equals: deduplicate the usable rows by first-seen URL, truncate to the
remaining budget, assemble. -/
theorem parseLoop_dedup (docs : List String) (metas : List (Option RespMeta))
    (scores : List (Option ℚ)) (limit : Nat) (rest : List String) :
    ∀ (idx : Nat) (seen : List String) (acc : List PostSearchResult),
      acc.length < limit →
      parseLoop docs metas scores limit true rest idx seen acc =
        acc ++ ((dedupByUrl seen (validRowsFrom metas idx rest.length)).take
          (limit - acc.length)).map (fun im => assembledRow docs scores im.1 im.2) := by
  induction rest with
  | nil =>
    intro idx seen acc _
    simp [parseLoop, validRowsFrom, dedupByUrl]
  | cons hd tl ih =>
    intro idx seen acc hacc
    cases hm : metas.getD idx none with
    | none =>
      have hm' : metas[idx]?.getD none = none := by simpa [List.getD] using hm
      have hvr : validRowsFrom metas idx (hd :: tl).length =
          validRowsFrom metas (idx + 1) tl.length := by
        simp [validRowsFrom, List.range'_succ, List.filterMap_cons, hm']
      rw [hvr]
      have hlhs : parseLoop docs metas scores limit true (hd :: tl) idx seen acc =
          parseLoop docs metas scores limit true tl (idx + 1) seen acc := by
        simp only [parseLoop, hm]
      rw [hlhs]
      exact ih (idx + 1) seen acc hacc
    | some m =>
      have hm' : metas[idx]?.getD none = some m := by simpa [List.getD] using hm
      have hvr : validRowsFrom metas idx (hd :: tl).length =
          (idx, m) :: validRowsFrom metas (idx + 1) tl.length := by
        simp [validRowsFrom, List.range'_succ, List.filterMap_cons, hm']
      rw [hvr]
      by_cases hskip :
          (!(m.post_url.getD "").isEmpty && decide ((m.post_url.getD "") ∈ seen)) = true
      · have hlhs : parseLoop docs metas scores limit true (hd :: tl) idx seen acc =
            parseLoop docs metas scores limit true tl (idx + 1) seen acc := by
          simp only [parseLoop, hm, Bool.true_and]
          rw [if_pos hskip]
        have hrhs : dedupByUrl seen ((idx, m) :: validRowsFrom metas (idx + 1) tl.length) =
            dedupByUrl seen (validRowsFrom metas (idx + 1) tl.length) := by
          simp only [dedupByUrl]
          rw [if_pos hskip]
        rw [hlhs, hrhs]
        exact ih (idx + 1) seen acc hacc
      · have hrhs : dedupByUrl seen ((idx, m) :: validRowsFrom metas (idx + 1) tl.length) =
            (idx, m) :: dedupByUrl
              (if !(m.post_url.getD "").isEmpty then seen ++ [m.post_url.getD ""] else seen)
              (validRowsFrom metas (idx + 1) tl.length) := by
          simp only [dedupByUrl]
          rw [if_neg hskip]
        rw [hrhs]
        have hsub : limit - acc.length = (limit - (acc.length + 1)) + 1 := by omega
        rw [hsub, List.take_succ_cons, List.map_cons]
        by_cases hfull : acc.length + 1 ≥ limit
        · have hz : limit - (acc.length + 1) = 0 := by omega
          rw [hz, List.take_zero, List.map_nil]
          have hlhs : parseLoop docs metas scores limit true (hd :: tl) idx seen acc =
              acc ++ [buildSearchResultFromMetadata m
                (if (docs.getD idx "").isEmpty then "" else pySliceTo 300 (docs.getD idx ""))
                ((scores.getD idx none).getD 0)] := by
            simp only [parseLoop, hm, Bool.true_and]
            rw [if_neg hskip]
            rw [if_pos (by
              simp only [List.length_append, List.length_cons, List.length_nil]
              omega)]
          rw [hlhs]
          rfl
        · have hlhs : parseLoop docs metas scores limit true (hd :: tl) idx seen acc =
              parseLoop docs metas scores limit true tl (idx + 1)
                (if !(m.post_url.getD "").isEmpty then seen ++ [m.post_url.getD ""] else seen)
                (acc ++ [buildSearchResultFromMetadata m
                  (if (docs.getD idx "").isEmpty then "" else pySliceTo 300 (docs.getD idx ""))
                  ((scores.getD idx none).getD 0)]) := by
            simp only [parseLoop, hm, Bool.true_and]
            rw [if_neg hskip]
            rw [if_neg (by
              simp only [List.length_append, List.length_cons, List.length_nil]
              omega)]
          rw [hlhs, ih (idx + 1) _ _ (by
            simp only [List.length_append, List.length_cons, List.length_nil]
            omega)]
          simp only [List.length_append, List.length_cons, List.length_nil, List.append_assoc,
            List.singleton_append]
          have hsub2 : limit - (acc.length + (0 + 1)) = limit - (acc.length + 1) := by omega
          rw [hsub2]
          rfl

/-- C5: with `distinct_results` requested, `_parse_search_response` equals
"drop rows without usable metadata, keep only the first (minimum-rank) row per
non-empty canonical URL, truncate to `limit`, assemble" — deduplication before
truncation; hence the result has at most `limit` entries whose non-empty URLs
are pairwise distinct. -/
theorem distinct_by_url_dedup (ids docs : List String) (metas : List (Option RespMeta))
    (scores : List (Option ℚ)) (limit : Nat) (hlim : 1 ≤ limit) :
    parseSearchResponse ids docs metas scores limit true =
      ((dedupByUrl [] (validRowsFrom metas 0 ids.length)).take limit).map
        (fun im => assembledRow docs scores im.1 im.2)
    ∧ (parseSearchResponse ids docs metas scores limit true).length ≤ limit
    ∧ (parseSearchResponse ids docs metas scores limit true).Pairwise
        (fun r₁ r₂ => r₁.post_url = "" ∨ r₂.post_url = "" ∨ r₁.post_url ≠ r₂.post_url) := by
  have h1 : parseSearchResponse ids docs metas scores limit true =
      ((dedupByUrl [] (validRowsFrom metas 0 ids.length)).take limit).map
        (fun im => assembledRow docs scores im.1 im.2) := by
    unfold parseSearchResponse
    rw [parseLoop_dedup docs metas scores limit ids 0 [] [] (by simpa using hlim)]
    simp
  refine ⟨h1, ?_, ?_⟩
  · rw [h1]
    simp only [List.length_map, List.length_take]
    exact min_le_left _ _
  · rw [h1]
    have hp := dedupByUrl_pairwise (validRowsFrom metas 0 ids.length) []
    have hp2 := hp.sublist (List.take_sublist limit _)
    refine List.pairwise_map.mpr (hp2.imp ?_)
    intro a b hab
    exact hab

/-- Stable sorts of permuted chunk lists with pairwise-distinct `chunk_index`
keys coincide. -/
theorem sortedRows_eq (l₁ l₂ : List (Int × String × RespMeta)) (hperm : l₁.Perm l₂)
    (hnodup : (l₂.map (fun c => c.1)).Nodup) :
    List.insertionSort (fun a b => a.1 ≤ b.1) l₁ =
      List.insertionSort (fun a b => a.1 ≤ b.1) l₂ := by
  have p₁ : (List.insertionSort (fun a b => a.1 ≤ b.1) l₁).Perm l₂ :=
    (List.perm_insertionSort _ _).trans hperm
  have p₂ : (List.insertionSort (fun a b => a.1 ≤ b.1) l₂).Perm l₂ :=
    List.perm_insertionSort _ _
  have strict : ∀ l : List (Int × String × RespMeta),
      l.Perm l₂ →
      (List.insertionSort (fun a b => a.1 ≤ b.1) l).Perm l₂ →
      List.Sorted (fun a b => a.1 < b.1) (List.insertionSort (fun a b => a.1 ≤ b.1) l) := by
    intro l _ hpl
    have hsorted := List.sorted_insertionSort (fun a b => a.1 ≤ b.1) l
    have hnd : ((List.insertionSort (fun a b => a.1 ≤ b.1) l).map (fun c => c.1)).Nodup :=
      (hpl.map (fun c => c.1)).nodup_iff.mpr hnodup
    have hne := List.pairwise_map.mp hnd
    exact (hsorted.and hne).imp (fun hab => lt_of_le_of_ne hab.1 hab.2)
  exact List.eq_of_perm_of_sorted (p₁.trans p₂.symm) (strict l₁ hperm p₁) (strict l₂ (List.Perm.refl _) p₂)

/-- Filtering out the rows without metadata does not change the chunk triples. -/
theorem mdChunkRows_filter (rows : List (Option String × Option RespMeta)) :
    mdChunkRows (rows.filter (fun r => r.2.isSome)) = mdChunkRows rows := by
  induction rows with
  | nil => rfl
  | cons r rs ih =>
    obtain ⟨doc, meta⟩ := r
    cases meta with
    | none => simpa [mdChunkRows, List.filter_cons] using ih
    | some m => simpa [mdChunkRows, List.filter_cons] using ih

/-- Rows that all lack metadata produce no chunk triples. -/
theorem mdChunkRows_all_none (rows : List (Option String × Option RespMeta))
    (h : ∀ r ∈ rows, r.2 = none) : mdChunkRows rows = [] := by
  induction rows with
  | nil => rfl
  | cons r rs ih =>
    obtain ⟨doc, meta⟩ := r
    have hr : meta = none := h (doc, meta) (List.mem_cons_self _ _)
    subst hr
    simp only [mdChunkRows, List.filterMap_cons]
    exact ih (fun x hx => h x (List.mem_cons_of_mem _ hx))

/-- C9 (implicit): `get_post_markdown` reconstructs the document from the
usable chunks sorted ascending by `chunk_index`: with pairwise-distinct chunk
indices the result does not depend on the order in which the store returns the
rows; rows without metadata are skipped outright; if no row carries metadata
the call returns `(None, None)`; and the markdown is the blank-line join of
the truthy chunk texts, stripped, taken in ascending `chunk_index` order. -/
theorem document_reconstruction_order
    (rows rows2 : List (Option String × Option RespMeta)) (slug : String)
    (hperm : rows2.Perm rows)
    (hnodup : ((mdChunkRows rows).map (fun c => c.1)).Nodup) :
    getPostMarkdown rows2 slug = getPostMarkdown rows slug
    ∧ getPostMarkdown (rows.filter (fun r => r.2.isSome)) slug = getPostMarkdown rows slug
    ∧ ((∀ r ∈ rows, r.2 = none) → getPostMarkdown rows slug = (none, none))
    ∧ (rows.isEmpty = false → (mdChunkRows rows).isEmpty = false →
        (getPostMarkdown rows slug).2 =
          some ("\n\n".intercalate
            (((List.insertionSort (fun a b => a.1 ≤ b.1) (mdChunkRows rows)).filter
                (fun c => pyTruthy c.2.1)).map (fun c => pyStrip c.2.1)))
        ∧ ((List.insertionSort (fun a b => a.1 ≤ b.1) (mdChunkRows rows)).map
            (fun c => c.1)).Pairwise (fun a b => a ≤ b)) := by
  have hchunks : (mdChunkRows rows2).Perm (mdChunkRows rows) := hperm.filterMap _
  refine ⟨?_, ?_, ?_, ?_⟩
  · unfold getPostMarkdown
    by_cases he : rows.isEmpty
    · rw [if_pos he, if_pos (by
        rw [List.isEmpty_iff] at he ⊢
        exact List.Perm.eq_nil (he ▸ hperm))]
    · rw [if_neg he, if_neg (fun hc => he (by
        rw [List.isEmpty_iff] at hc ⊢
        exact List.Perm.eq_nil (hc ▸ hperm.symm)))]
      by_cases hc : (mdChunkRows rows).isEmpty
      · rw [if_pos hc, if_pos (by
          rw [List.isEmpty_iff] at hc ⊢
          exact List.Perm.eq_nil (hc ▸ hchunks))]
      · rw [if_neg hc, if_neg (fun hc2 => hc (by
          rw [List.isEmpty_iff] at hc2 ⊢
          exact List.Perm.eq_nil (hc2 ▸ hchunks.symm)))]
        rw [sortedRows_eq (mdChunkRows rows2) (mdChunkRows rows) hchunks hnodup]
  · unfold getPostMarkdown
    rw [mdChunkRows_filter]
    by_cases he : rows.isEmpty
    · rw [if_pos he, if_pos (by
        rw [List.isEmpty_iff] at he ⊢
        simp [he])]
    · rw [if_neg he]
      by_cases hc : (mdChunkRows rows).isEmpty
      · rw [if_pos hc]
        split <;> rfl
      · rw [if_neg hc]
        have hfne : ¬((rows.filter (fun r => r.2.isSome)).isEmpty = true) := by
          intro hf
          apply hc
          rw [List.isEmpty_iff] at hf ⊢
          rw [← mdChunkRows_filter rows, hf]
          rfl
        rw [if_neg hfne]
  · intro hall
    have hmd : mdChunkRows rows = [] := mdChunkRows_all_none rows hall
    unfold getPostMarkdown
    by_cases he : rows.isEmpty
    · rw [if_pos he]
    · rw [if_neg he, if_pos (by rw [hmd]; rfl)]
  · intro he hc
    constructor
    · unfold getPostMarkdown
      rw [he, hc]
      rfl
    · refine List.pairwise_map.mpr ?_
      exact List.sorted_insertionSort (fun a b => a.1 ≤ b.1) (mdChunkRows rows)

/-- Chunk-row metadata carrying only a chunk index. -/
def metaIdx (i : Int) : RespMeta :=
  { post_id := some "p"
    post_slug := some "s"
    post_title := some "T"
    post_url := some "u"
    chunk_index := some i
    published_at := none
    updated_at := none
    content_type := some "post"
    tags := none
    authors := none }

theorem document_reconstruction_order_witness :
    ([(some "b", some (metaIdx 1)), (some "a", some (metaIdx 0))].Perm
        [(some "a", some (metaIdx 0)), (some "b", some (metaIdx 1))])
    ∧ ((mdChunkRows [(some "a", some (metaIdx 0)), (some "b", some (metaIdx 1))]).map
        (fun c => c.1)).Nodup
    ∧ getPostMarkdown [(some "b", some (metaIdx 1)), (some "a", some (metaIdx 0))] "s" =
        getPostMarkdown [(some "a", some (metaIdx 0)), (some "b", some (metaIdx 1))] "s" :=
  ⟨by decide, by decide,
    (document_reconstruction_order
      [(some "a", some (metaIdx 0)), (some "b", some (metaIdx 1))]
      [(some "b", some (metaIdx 1)), (some "a", some (metaIdx 0))] "s"
      (by decide) (by decide)).1⟩

/-- Row metadata fixture used in the deduplication witness. -/
def metaW (slug url : String) : RespMeta :=
  { post_id := some slug
    post_slug := some slug
    post_title := some slug
    post_url := some url
    chunk_index := none
    published_at := none
    updated_at := none
    content_type := some "post"
    tags := none
    authors := none }

theorem distinct_by_url_dedup_witness :
    (1 ≤ 2)
    ∧ (parseSearchResponse ["i1", "i2", "i3"] []
        [some (metaW "a" "https://x/y"), none, some (metaW "b" "https://x/y")] [] 2
        true).length ≤ 2
    ∧ (parseSearchResponse ["i1", "i2", "i3"] []
        [some (metaW "a" "https://x/y"), none, some (metaW "b" "https://x/y")] [] 2
        true).map PostSearchResult.post_slug = ["a"] :=
  ⟨by decide,
    (distinct_by_url_dedup ["i1", "i2", "i3"] []
      [some (metaW "a" "https://x/y"), none, some (metaW "b" "https://x/y")] [] 2
      (by decide)).2.1,
    by decide⟩

/-- The response rows of the specification's worked RRF example. -/
def rowsC2 : List (String × ℚ) :=
  [("B", -(87 / 3784)), ("A", -(1 / 86)), ("C", -(1 / 88))]

/-- C2: whenever the hybrid search returns rows, every row's score is the
negation of the specification's fused score Σ weight/(k + rank) (1-based
in-channel rank, 0 for an item absent from a channel's list), and the rows are
ordered by descending fused score; on the spec's concrete instance (dense
ranks A:1 B:2, sparse ranks B:1 C:2, weights 0.5 each, k = 42) the returned
order is B, A, C. -/
theorem weighted_rrf_fusion :
    (∀ (dW sW k : ℚ) (dEmb : Option (List ℚ)) (sEmb : Option SparseVec)
        (dc sc : List String) (limit : Nat) (rows : List (String × ℚ)),
        hybridRrfSearch dW sW k dEmb sEmb dc sc limit = .ok rows →
          (∀ p ∈ rows,
            p.2 = -(specFusedScore (denseActive dW dEmb) (sparseActive sW sEmb)
              (effectiveDenseWeight dW dEmb) (effectiveSparseWeight sW sEmb) k dc sc p.1))
          ∧ (rows.map Prod.fst).Pairwise (fun a b =>
              specFusedScore (denseActive dW dEmb) (sparseActive sW sEmb)
                  (effectiveDenseWeight dW dEmb) (effectiveSparseWeight sW sEmb) k dc sc b
                ≤ specFusedScore (denseActive dW dEmb) (sparseActive sW sEmb)
                  (effectiveDenseWeight dW dEmb) (effectiveSparseWeight sW sEmb) k dc sc a))
    ∧ hybridRrfSearch (1/2) (1/2) 42 (some [1]) (some ⟨[], []⟩) ["A", "B"] ["B", "C"] 10 =
        .ok rowsC2
    ∧ rowsC2.map Prod.fst = ["B", "A", "C"] := by
  refine ⟨?_, ?_, by decide⟩
  · intro dW sW k dEmb sEmb dc sc limit rows h
    unfold hybridRrfSearch at h
    by_cases h1 : effectiveDenseWeight dW dEmb = 0 ∧ effectiveSparseWeight sW sEmb = 0
    · rw [if_pos h1] at h
      exact absurd h (by simp)
    · rw [if_neg h1] at h
      by_cases h2 : (!denseActive dW dEmb && !sparseActive sW sEmb) = true
      · rw [if_pos h2] at h
        exact absurd h (by simp)
      · rw [if_neg h2] at h
        injection h with h
        subst h
        constructor
        · intro p hp
          rw [rankedRows_score _ _ _ _ _ _ _ _ p hp, evalRankExpr_eq_neg_spec]
        · have := rankedRows_sorted (denseActive dW dEmb) (sparseActive sW sEmb)
            (effectiveDenseWeight dW dEmb) (effectiveSparseWeight sW sEmb) k dc sc limit
          refine this.imp ?_
          intro a b hab
          have ha := evalRankExpr_eq_neg_spec (denseActive dW dEmb) (sparseActive sW sEmb)
            (effectiveDenseWeight dW dEmb) (effectiveSparseWeight sW sEmb) k dc sc a
          have hb := evalRankExpr_eq_neg_spec (denseActive dW dEmb) (sparseActive sW sEmb)
            (effectiveDenseWeight dW dEmb) (effectiveSparseWeight sW sEmb) k dc sc b
          rw [ha, hb] at hab
          exact neg_le_neg_iff.mp hab
  · have nAB : ("A" : String) ≠ "B" := by decide
    have nBA : ("B" : String) ≠ "A" := by decide
    have nAC : ("A" : String) ≠ "C" := by decide
    have nCA : ("C" : String) ≠ "A" := by decide
    have nBC : ("B" : String) ≠ "C" := by decide
    have nCB : ("C" : String) ≠ "B" := by decide
    have hA : evalRankExpr true true (1/2) (1/2) 42 ["A", "B"] ["B", "C"] "A" = -1/86 := by
      norm_num [evalRankExpr, rrfTerm, knnRank, List.indexOf?, nBA, nCA]
    have hB : evalRankExpr true true (1/2) (1/2) 42 ["A", "B"] ["B", "C"] "B" = -87/3784 := by
      norm_num [evalRankExpr, rrfTerm, knnRank, List.indexOf?, nAB, nCB]
    have hC : evalRankExpr true true (1/2) (1/2) 42 ["A", "B"] ["B", "C"] "C" = -1/88 := by
      norm_num [evalRankExpr, rrfTerm, knnRank, List.indexOf?, nAC, nBC]
    have hne : ¬(effectiveDenseWeight (1/2 : ℚ) (some [1]) = 0
        ∧ effectiveSparseWeight (1/2 : ℚ) (some ⟨[], []⟩) = 0) := by
      intro hc
      have := hc.1
      norm_num [effectiveDenseWeight, denseTruthy] at this
    have hda : denseActive (1/2 : ℚ) (some [1]) = true := by
      norm_num [denseActive, denseTruthy, effectiveDenseWeight]
    have hsa : sparseActive (1/2 : ℚ) (some ⟨[], []⟩) = true := by
      norm_num [sparseActive, effectiveSparseWeight]
    have hdw : effectiveDenseWeight (1/2 : ℚ) (some [1]) = 1/2 := by
      norm_num [effectiveDenseWeight, denseTruthy]
    have hsw : effectiveSparseWeight (1/2 : ℚ) (some ⟨[], []⟩) = 1/2 := by
      norm_num [effectiveSparseWeight]
    unfold hybridRrfSearch
    rw [if_neg hne, hda, hsa, hdw, hsw]
    norm_num [rankedRows, rowsC2, firstDedup, List.insertionSort, List.orderedInsert,
      hA, hB, hC]

theorem weighted_rrf_fusion_witness :
    (hybridRrfSearch (1/2) (1/2) 42 (some [1]) (some ⟨[], []⟩) ["A", "B"] ["B", "C"] 10 =
        .ok rowsC2)
      ∧ (∀ p ∈ rowsC2,
          p.2 = -(specFusedScore (denseActive (1/2) (some [1]))
            (sparseActive (1/2) (some ⟨[], []⟩)) (effectiveDenseWeight (1/2) (some [1]))
            (effectiveSparseWeight (1/2) (some ⟨[], []⟩)) 42 ["A", "B"] ["B", "C"] p.1)) :=
  ⟨weighted_rrf_fusion.2.1,
    (weighted_rrf_fusion.1 (1/2) (1/2) 42 (some [1]) (some ⟨[], []⟩) ["A", "B"] ["B", "C"]
      10 rowsC2 weighted_rrf_fusion.2.1).1⟩

/-- C4: when the dense query embedding failed (caught and downgraded to
`None`) but the sparse embedding is present with positive configured weight,
the search returns the sparse-only ranking (ids drawn from the sparse
candidate list, scored by the sparse RRF term alone) instead of an error; and
under non-negative configured weights the hybrid search signals an error
exactly when both effective channel weights are 0. -/
theorem dense_failure_fallback_and_no_channel_error :
    (∀ (dW sW k : ℚ) (sEmb : SparseVec) (dc sc : List String) (limit : Nat),
        0 < sW →
        searchPipeline dW sW k none sEmb dc sc limit =
          .ok (((List.insertionSort (fun a b => rrfTerm sW k sc a ≤ rrfTerm sW k sc b)
              (firstDedup sc)).take (max (limit * 3) limit)).map
            (fun x => (x, rrfTerm sW k sc x))))
    ∧ (∀ (dW sW k : ℚ) (dEmb : Option (List ℚ)) (sEmb : Option SparseVec)
        (dc sc : List String) (limit : Nat), 0 ≤ dW → 0 ≤ sW →
        (isErr (hybridRrfSearch dW sW k dEmb sEmb dc sc limit) = true ↔
          effectiveDenseWeight dW dEmb = 0 ∧ effectiveSparseWeight sW sEmb = 0)) := by
  constructor
  · intro dW sW k sEmb dc sc limit hsw
    have hdw0 : effectiveDenseWeight dW none = 0 := rfl
    have hsw1 : effectiveSparseWeight sW (some sEmb) = sW := rfl
    have hda : denseActive dW none = false := rfl
    have hsa : sparseActive sW (some sEmb) = true := by
      simp [sparseActive, effectiveSparseWeight, hsw]
    have hev : ∀ x, evalRankExpr false true 0 sW k dc sc x = rrfTerm sW k sc x := by
      intro x
      unfold evalRankExpr
      simp
    unfold searchPipeline hybridRrfSearch
    rw [if_neg (by rw [hdw0, hsw1]; exact fun hc => absurd hc.2 (ne_of_gt hsw))]
    rw [hda, hsa, hdw0, hsw1, if_neg (by decide)]
    have hstart : rankedRows false true 0 sW k dc sc limit =
        ((List.insertionSort
            (fun a b => evalRankExpr false true 0 sW k dc sc a
              ≤ evalRankExpr false true 0 sW k dc sc b)
            (firstDedup sc)).take (max (limit * 3) limit)).map
          (fun x => (x, evalRankExpr false true 0 sW k dc sc x)) := rfl
    rw [hstart,
      insertionSort_congr (fun a b => evalRankExpr false true 0 sW k dc sc a
          ≤ evalRankExpr false true 0 sW k dc sc b)
        (fun a b => rrfTerm sW k sc a ≤ rrfTerm sW k sc b)
        (by intro a b; simp only [hev])]
    exact congrArg Except.ok (List.map_congr_left (fun a _ => by rw [hev a]))
  · intro dW sW k dEmb sEmb dc sc limit hdw hsw
    unfold hybridRrfSearch
    by_cases h1 : effectiveDenseWeight dW dEmb = 0 ∧ effectiveSparseWeight sW sEmb = 0
    · rw [if_pos h1]
      simpa [isErr] using h1
    · rw [if_neg h1]
      have h2 : (!denseActive dW dEmb && !sparseActive sW sEmb) = false := by
        rcases not_and_or.mp h1 with hd | hs
        · have hdt : denseTruthy dEmb = true := by
            cases hdt2 : denseTruthy dEmb
            · exact absurd (by simp [effectiveDenseWeight, hdt2]) hd
            · rfl
          have hpos : 0 < effectiveDenseWeight dW dEmb := by
            have hle : 0 ≤ effectiveDenseWeight dW dEmb := by
              simpa [effectiveDenseWeight, hdt] using hdw
            exact lt_of_le_of_ne hle (Ne.symm hd)
          simp [denseActive, hdt, hpos]
        · have hst : sEmb.isSome = true := by
            cases hst2 : sEmb.isSome
            · exact absurd (by simp [effectiveSparseWeight, hst2]) hs
            · rfl
          have hpos : 0 < effectiveSparseWeight sW sEmb := by
            have hle : 0 ≤ effectiveSparseWeight sW sEmb := by
              simpa [effectiveSparseWeight, hst] using hsw
            exact lt_of_le_of_ne hle (Ne.symm hs)
          simp [sparseActive, hst, hpos]
      rw [h2]
      simp [isErr, h1]

theorem dense_failure_fallback_and_no_channel_error_witness :
    (0 < (1/2 : ℚ)
      ∧ searchPipeline (1/2) (1/2) 42 none ⟨[], []⟩ ["A"] ["B"] 10 =
          .ok (((List.insertionSort
              (fun a b => rrfTerm (1/2) 42 ["B"] a ≤ rrfTerm (1/2) 42 ["B"] b)
              (firstDedup ["B"])).take (max (10 * 3) 10)).map
            (fun x => (x, rrfTerm (1/2) 42 ["B"] x))))
    ∧ (isErr (hybridRrfSearch (1/2) (1/2) 42 none none ["A"] ["B"] 10) = true ↔
        effectiveDenseWeight (1/2) none = 0 ∧ effectiveSparseWeight (1/2) none = 0) :=
  ⟨⟨by norm_num,
      (dense_failure_fallback_and_no_channel_error.1 (1/2) (1/2) 42 ⟨[], []⟩ ["A"] ["B"] 10
        (by norm_num))⟩,
    dense_failure_fallback_and_no_channel_error.2 (1/2) (1/2) 42 none none ["A"] ["B"] 10
      (by norm_num) (by norm_num)⟩

/-- C1: idempotent re-indexing — after a first `index_all_posts` pass over a
remote content set against the empty store, a second pass over the same set
(in any order) classifies zero items as new, updated, or removed, issues no
store upsert or delete, and leaves the store unchanged (stated for
duplicate-free keys and (content type, id) pairs, clean non-empty slugs, and
a hash function producing clean non-empty digests). -/
theorem idempotent_reindexing (cfg : IndexerConfig)
    (items items2 : List (GhostPost × ContentType))
    (hperm : items.Perm items2)
    (hkeys : (items.map itemKey).Nodup)
    (hids : (items.map (fun it => (it.2, it.1.id))).Nodup)
    (hslug : ∀ it ∈ items, pyStrip it.1.slug = it.1.slug ∧ it.1.slug ≠ "")
    (hhash : ∀ s, pyStrip (cfg.hashFn s) = cfg.hashFn s ∧ cfg.hashFn s ≠ "") :
    (indexAllPosts cfg items2 (indexAllPosts cfg items []).store).newItems = []
    ∧ (indexAllPosts cfg items2 (indexAllPosts cfg items []).store).updatedItems = []
    ∧ (indexAllPosts cfg items2 (indexAllPosts cfg items []).store).removedCount = 0
    ∧ (indexAllPosts cfg items2 (indexAllPosts cfg items []).store).ops = []
    ∧ (indexAllPosts cfg items2 (indexAllPosts cfg items []).store).store
        = (indexAllPosts cfg items []).store := by
  obtain ⟨-, hsnap⟩ := pass1_characterization cfg items hkeys hids hslug hhash
  obtain ⟨store1, hg⟩ : ∃ s, s = (indexAllPosts cfg items []).store := ⟨_, rfl⟩
  rw [← hg] at hsnap ⊢
  have hmm : ∀ it2, it2 ∈ items2 → it2 ∈ items := fun it2 h => hperm.mem_iff.mpr h
  have horigin2 : ∀ y ∈ items.filterMap (itemSel cfg),
      ∃ it ∈ items, y.1 = it.1 ∧ y.2.1 = it.2
        ∧ y.2.2 = (buildChunksAndHash cfg it.1 it.2).1 ∧ y.2.2.isEmpty = false := by
    intro y hy
    obtain ⟨it, hit, hsel⟩ := List.mem_filterMap.mp hy
    exact ⟨it, hit, itemSel_some cfg it y hsel⟩
  have hsnKeys : ((items.filterMap (itemSel cfg)).map
      (fun z => (z.1.slug, z.2.1))).Nodup := by
    refine List.pairwise_map.mpr ?_
    refine List.pairwise_filterMap.mpr ?_
    refine (List.pairwise_map.mp hkeys).imp ?_
    intro a b hab x hx y hy
    obtain ⟨hx1, hx2, _, _⟩ := itemSel_some cfg a x hx
    obtain ⟨hy1, hy2, _, _⟩ := itemSel_some cfg b y hy
    rw [hx1, hx2, hy1, hy2]
    exact hab
  have hlookup_mem : ∀ it2 ∈ items,
      (buildChunksAndHash cfg it2.1 it2.2).1.isEmpty = false →
      snapLookup ((items.filterMap (itemSel cfg)).map
          (fun z => ((z.1.slug, z.2.1), snapEntryOf cfg z.1))) (it2.1.slug, it2.2)
        = some (snapEntryOf cfg it2.1) := by
    intro it2 hit2 hb
    have hy : (it2.1, it2.2, (buildChunksAndHash cfg it2.1 it2.2).1)
        ∈ items.filterMap (itemSel cfg) :=
      List.mem_filterMap.mpr ⟨it2, hit2, by unfold itemSel; rw [if_neg (by simp [hb])]⟩
    exact snapLookup_map_mem cfg _ _ hy hsnKeys
  have hlookup_none : ∀ it2 ∈ items,
      (buildChunksAndHash cfg it2.1 it2.2).1.isEmpty = true →
      snapLookup ((items.filterMap (itemSel cfg)).map
          (fun z => ((z.1.slug, z.2.1), snapEntryOf cfg z.1))) (it2.1.slug, it2.2)
        = none := by
    intro it2 hit2 hb
    refine snapLookup_none_of _ _ ?_
    intro kv hkv
    obtain ⟨y, hyL, rfl⟩ := List.mem_map.mp hkv
    obtain ⟨it', hit', h1, h2, h3, h4⟩ := horigin2 y hyL
    intro heq
    have heq' : (y.1.slug, y.2.1) = (it2.1.slug, it2.2) := heq
    rw [h1, h2] at heq'
    have hEq : it' = it2 := List.inj_on_of_nodup_map hkeys hit' hit2 heq'
    rw [h3, hEq, hb] at h4
    simp at h4
  have hnewnone : ∀ it2 ∈ items2,
      newSel cfg ((items.filterMap (itemSel cfg)).map
        (fun z => ((z.1.slug, z.2.1), snapEntryOf cfg z.1))) it2 = none := by
    intro it2 hit2
    by_cases hb : (buildChunksAndHash cfg it2.1 it2.2).1.isEmpty
    · unfold newSel
      rw [if_pos hb]
    · refine newSel_none_of_some cfg _ it2 ?_
      rw [hlookup_mem it2 (hmm it2 hit2) (by simpa using hb)]
      rfl
  have hupdnone : ∀ it2 ∈ items2,
      updSel cfg ((items.filterMap (itemSel cfg)).map
        (fun z => ((z.1.slug, z.2.1), snapEntryOf cfg z.1))) it2 = none := by
    intro it2 hit2
    by_cases hb : (buildChunksAndHash cfg it2.1 it2.2).1.isEmpty
    · unfold updSel
      rw [if_pos hb]
    · rw [updSel_spec cfg _ it2 (snapEntryOf cfg it2.1) (by simpa using hb)
        (hlookup_mem it2 (hmm it2 hit2) (by simpa using hb))]
      have hcond : ((buildChunksAndHash cfg it2.1 it2.2).2
            ≠ (snapEntryOf cfg it2.1).content_hash
          || tsNewer it2.1.updated_at (snapEntryOf cfg it2.1).updated_at) = false := by
        rw [buildChunks_hash cfg it2.1 it2.2 (by simpa using hb)]
        simp [snapEntryOf, tsNewer_self]
      rw [if_neg (by rw [hcond]; exact Bool.false_ne_true)]
  have hsilent2 := classify_fold_silent cfg
    ((items.filterMap (itemSel cfg)).map
      (fun z => ((z.1.slug, z.2.1), snapEntryOf cfg z.1))) items2
    { store := store1, ops := [], newItems := [], updatedItems := [], currentKeys := [] }
    (by
      intro it2 hit2 hb
      rw [hlookup_none it2 (hmm it2 hit2) hb]
      rfl)
  have hclass2 := classify_fold_fields cfg
    ((items.filterMap (itemSel cfg)).map
      (fun z => ((z.1.slug, z.2.1), snapEntryOf cfg z.1))) items2
    { store := store1, ops := [], newItems := [], updatedItems := [], currentKeys := [] }
  have hnew2 : (items2.foldl (classifyStep cfg
        ((items.filterMap (itemSel cfg)).map
          (fun z => ((z.1.slug, z.2.1), snapEntryOf cfg z.1))))
      { store := store1, ops := [], newItems := [], updatedItems := [],
        currentKeys := [] }).newItems = [] := by
    rw [hclass2.1, List.filterMap_congr (fun it2 hit2 => hnewnone it2 hit2)]
    simp
  have hupd2 : (items2.foldl (classifyStep cfg
        ((items.filterMap (itemSel cfg)).map
          (fun z => ((z.1.slug, z.2.1), snapEntryOf cfg z.1))))
      { store := store1, ops := [], newItems := [], updatedItems := [],
        currentKeys := [] }).updatedItems = [] := by
    rw [hclass2.2.1, List.filterMap_congr (fun it2 hit2 => hupdnone it2 hit2)]
    simp
  have hkeys2 : (items2.foldl (classifyStep cfg
        ((items.filterMap (itemSel cfg)).map
          (fun z => ((z.1.slug, z.2.1), snapEntryOf cfg z.1))))
      { store := store1, ops := [], newItems := [], updatedItems := [],
        currentKeys := [] }).currentKeys = items2.map itemKey := by
    rw [hclass2.2.2]
    simp
  have hcststore : (items2.foldl (classifyStep cfg
        ((items.filterMap (itemSel cfg)).map
          (fun z => ((z.1.slug, z.2.1), snapEntryOf cfg z.1))))
      { store := store1, ops := [], newItems := [], updatedItems := [],
        currentKeys := [] }).store = store1 := hsilent2.1
  have hcstops : (items2.foldl (classifyStep cfg
        ((items.filterMap (itemSel cfg)).map
          (fun z => ((z.1.slug, z.2.1), snapEntryOf cfg z.1))))
      { store := store1, ops := [], newItems := [], updatedItems := [],
        currentKeys := [] }).ops = [] := hsilent2.2
  have hsub : ∀ kv ∈ (items.filterMap (itemSel cfg)).map
      (fun z => ((z.1.slug, z.2.1), snapEntryOf cfg z.1)),
      kv.1 ∈ items2.map itemKey := by
    intro kv hkv
    obtain ⟨y, hyL, rfl⟩ := List.mem_map.mp hkv
    obtain ⟨it', hit', h1, h2, _, _⟩ := horigin2 y hyL
    have hmem1 : itemKey it' ∈ items.map itemKey := List.mem_map_of_mem itemKey hit'
    have hmem2 : itemKey it' ∈ items2.map itemKey := ((hperm.map itemKey).mem_iff).mp hmem1
    have hkey : ((y.1.slug, y.2.1), snapEntryOf cfg y.1).1 = itemKey it' := by
      show (y.1.slug, y.2.1) = itemKey it'
      rw [h1, h2]
      rfl
    rw [hkey]
    exact hmem2
  have hremno := removal_fold_noop
    ((items.filterMap (itemSel cfg)).map
      (fun z => ((z.1.slug, z.2.1), snapEntryOf cfg z.1)))
    (items2.map itemKey) (store1, [], 0) hsub
  have hfinal : indexAllPosts cfg items2 store1
      = { newItems := [], updatedItems := [], removedCount := 0, ops := [],
          store := store1 } := by
    simp only [indexAllPosts]
    rw [hsnap, hnew2, hupd2, hkeys2, hcststore, hcstops]
    simp only [List.append_nil, List.foldl_nil]
    rw [hremno]
  rw [hfinal]
  exact ⟨rfl, rfl, rfl, rfl, rfl⟩

theorem idempotent_reindexing_witness :
    (indexAllPosts cfgFix [(postC6, ContentType.post)]
        (indexAllPosts cfgFix [(postC6, ContentType.post)] []).store).newItems = []
    ∧ (indexAllPosts cfgFix [(postC6, ContentType.post)]
        (indexAllPosts cfgFix [(postC6, ContentType.post)] []).store).updatedItems = []
    ∧ (indexAllPosts cfgFix [(postC6, ContentType.post)]
        (indexAllPosts cfgFix [(postC6, ContentType.post)] []).store).removedCount = 0
    ∧ (indexAllPosts cfgFix [(postC6, ContentType.post)]
        (indexAllPosts cfgFix [(postC6, ContentType.post)] []).store).ops = []
    ∧ (indexAllPosts cfgFix [(postC6, ContentType.post)]
        (indexAllPosts cfgFix [(postC6, ContentType.post)] []).store).store
        = (indexAllPosts cfgFix [(postC6, ContentType.post)] []).store :=
  idempotent_reindexing cfgFix [(postC6, ContentType.post)] [(postC6, ContentType.post)] (List.Perm.refl _)
    (by decide) (by decide) (by decide)
    (fun s => ⟨rfl, by show ("h" : String) ≠ ""; decide⟩)

/-- C3: change-detection update rule — for a remote item whose key
(slug, content type) is indexed in the snapshot with entry `e` and whose
chunking yields at least one chunk, the pass classifies the item as updated
exactly when its content hash differs from the snapshot hash or both
timestamps are present with the remote one strictly greater; the item is
never classified new; and when neither condition holds, no op of the pass
deletes the item's key or upserts any chunk id carrying the item's content
type and post id (stated for duplicate-free keys and (content type, id)
pairs). -/
theorem change_detection_update_rule (cfg : IndexerConfig) (store0 : Store)
    (items : List (GhostPost × ContentType)) (it : GhostPost × ContentType)
    (e : SnapshotEntry)
    (hmem : it ∈ items)
    (hkeys : (items.map itemKey).Nodup)
    (hids : (items.map (fun x => (x.2, x.1.id))).Nodup)
    (hlook : snapLookup (snapshotOf store0) (it.1.slug, it.2) = some e)
    (hne : (buildChunksAndHash cfg it.1 it.2).1.isEmpty = false) :
    ((it.1, it.2, (buildChunksAndHash cfg it.1 it.2).1)
        ∈ (indexAllPosts cfg items store0).updatedItems
      ↔ ((buildChunksAndHash cfg it.1 it.2).2 ≠ e.content_hash
          ∨ tsNewer it.1.updated_at e.updated_at = true))
    ∧ (it.1, it.2, (buildChunksAndHash cfg it.1 it.2).1)
        ∉ (indexAllPosts cfg items store0).newItems
    ∧ ((buildChunksAndHash cfg it.1 it.2).2 = e.content_hash →
        tsNewer it.1.updated_at e.updated_at = false →
        ∀ op ∈ (indexAllPosts cfg items store0).ops,
          (∀ ids, op ≠ .deleteOp it.1.slug (some it.2.toStr) ids)
          ∧ (∀ ids, op = .upsertOp ids →
              ∀ cid ∈ ids, ¬(cid.1 = it.2.toStr ∧ cid.2.1 = it.1.id))) := by
  have hcf := classify_fold_fields cfg (snapshotOf store0) items
    { store := store0, ops := [], newItems := [], updatedItems := [], currentKeys := [] }
  have hupdEq : (indexAllPosts cfg items store0).updatedItems
      = items.filterMap (updSel cfg (snapshotOf store0)) := by
    simp only [indexAllPosts]
    rw [hcf.2.1]
    simp
  have hnewEq : (indexAllPosts cfg items store0).newItems
      = items.filterMap (newSel cfg (snapshotOf store0)) := by
    simp only [indexAllPosts]
    rw [hcf.1]
    simp
  refine ⟨?_, ?_, ?_⟩
  · rw [hupdEq]
    constructor
    · intro hin
      obtain ⟨it', hit', hsel⟩ := List.mem_filterMap.mp hin
      obtain ⟨hyeq, hb', hl'⟩ := updSel_some cfg _ it' _ hsel
      have h1 : it.1 = it'.1 :=
        congrArg (fun z : GhostPost × ContentType × List PostChunk => z.1) hyeq
      have h2 : it.2 = it'.2 :=
        congrArg (fun z : GhostPost × ContentType × List PostChunk => z.2.1) hyeq
      have hEq : it' = it := List.inj_on_of_nodup_map hkeys hit' hmem
        (by unfold itemKey; rw [h1, h2])
      rw [hEq] at hsel
      rw [updSel_spec cfg _ it e hne hlook] at hsel
      by_cases hc : ((buildChunksAndHash cfg it.1 it.2).2 ≠ e.content_hash
          || tsNewer it.1.updated_at e.updated_at) = true
      · have hc' : (buildChunksAndHash cfg it.1 it.2).2 ≠ e.content_hash
            ∨ tsNewer it.1.updated_at e.updated_at = true := by simpa using hc
        exact hc'
      · rw [if_neg hc] at hsel
        simp at hsel
    · intro hcond
      refine List.mem_filterMap.mpr ⟨it, hmem, ?_⟩
      rw [updSel_spec cfg _ it e hne hlook]
      have hcb : ((buildChunksAndHash cfg it.1 it.2).2 ≠ e.content_hash
          || tsNewer it.1.updated_at e.updated_at) = true := by
        rcases hcond with h | h
        · simp [h]
        · simp [h]
      rw [if_pos hcb]
  · intro hin
    rw [hnewEq] at hin
    obtain ⟨it', hit', hsel⟩ := List.mem_filterMap.mp hin
    obtain ⟨hyeq, hb', hl'⟩ := newSel_some cfg _ it' _ hsel
    have h1 : it.1 = it'.1 :=
      congrArg (fun z : GhostPost × ContentType × List PostChunk => z.1) hyeq
    have h2 : it.2 = it'.2 :=
      congrArg (fun z : GhostPost × ContentType × List PostChunk => z.2.1) hyeq
    have hEq : it' = it := List.inj_on_of_nodup_map hkeys hit' hmem
      (by unfold itemKey; rw [h1, h2])
    rw [hEq, hlook] at hl'
    simp at hl'
  · intro hhq htn
    refine indexAllPosts_ops_pred cfg items store0
      (fun op => (∀ ids, op ≠ .deleteOp it.1.slug (some it.2.toStr) ids)
        ∧ (∀ ids, op = .upsertOp ids →
            ∀ cid ∈ ids, ¬(cid.1 = it.2.toStr ∧ cid.2.1 = it.1.id))) ?_ ?_ ?_
    · intro it' hit' hb' hl' ids
      refine ⟨?_, ?_⟩
      · intro ids' hbad
        injection hbad with hs hct _
        have h2 : it'.2 = it.2 := toStr_inj _ _ (Option.some.inj hct)
        have hEq : it' = it := List.inj_on_of_nodup_map hkeys hit' hmem
          (by unfold itemKey; rw [hs, h2])
        rw [hEq] at hb'
        rw [hb'] at hne
        simp at hne
      · intro ids' hbad
        simp at hbad
    · intro y hy
      obtain ⟨it', hit', hyeq, hne_it⟩ : ∃ it' ∈ items,
          y = (it'.1, it'.2, (buildChunksAndHash cfg it'.1 it'.2).1) ∧ it' ≠ it := by
        rcases List.mem_append.mp hy with h | h
        · obtain ⟨it', hit', hsel⟩ := List.mem_filterMap.mp h
          obtain ⟨hyeq, hb', hl'⟩ := newSel_some cfg _ it' _ hsel
          refine ⟨it', hit', hyeq, ?_⟩
          intro hEq
          rw [hEq, hlook] at hl'
          simp at hl'
        · obtain ⟨it', hit', hsel⟩ := List.mem_filterMap.mp h
          obtain ⟨hyeq, hb', hl'⟩ := updSel_some cfg _ it' _ hsel
          refine ⟨it', hit', hyeq, ?_⟩
          intro hEq
          rw [hEq] at hsel
          rw [updSel_spec cfg _ it e hne hlook,
            if_neg (by simp [hhq, htn])] at hsel
          simp at hsel
      have hkne : itemKey it' ≠ itemKey it :=
        fun hk => hne_it (List.inj_on_of_nodup_map hkeys hit' hmem hk)
      have hys : y.1.slug = it'.1.slug := by rw [hyeq]
      have hyc : y.2.1 = it'.2 := by rw [hyeq]
      have hyb : y.2.2 = (buildChunksAndHash cfg it'.1 it'.2).1 := by rw [hyeq]
      refine ⟨?_, ?_⟩
      · intro ids
        refine ⟨?_, ?_⟩
        · intro ids' hbad
          injection hbad with hs hct _
          rw [hys] at hs
          rw [hyc] at hct
          have h2 : it'.2 = it.2 := toStr_inj _ _ (Option.some.inj hct)
          exact hkne (by unfold itemKey; rw [hs, h2])
        · intro ids' hbad
          simp at hbad
      · refine ⟨?_, ?_⟩
        · intro ids' hbad
          simp at hbad
        · intro ids' hbad
          injection hbad with hids'
          intro cid hcid
          rw [← hids'] at hcid
          obtain ⟨c, hc, rfl⟩ := List.mem_map.mp hcid
          rw [hyb] at hc
          obtain ⟨_, hpid, hcty, _, _⟩ := buildChunks_fields cfg it'.1 it'.2 c hc
          rintro ⟨hct_eq, hid_eq⟩
          have ha : c.content_type.toStr = it.2.toStr := hct_eq
          rw [hcty] at ha
          have h2 : it'.2 = it.2 := toStr_inj _ _ ha
          have hbb : c.post_id = it.1.id := hid_eq
          have h3 : it'.1.id = it.1.id := by rw [← hpid]; exact hbb
          exact hne_it (List.inj_on_of_nodup_map hids hit' hmem
            (by show (it'.2, it'.1.id) = (it.2, it.1.id); rw [h2, h3]))
    · intro kv hkv hnotin ids
      refine ⟨?_, ?_⟩
      · intro ids' hbad
        injection hbad with hs hct _
        have hct' : kv.1.2 = it.2 := toStr_inj _ _ (Option.some.inj hct)
        refine hnotin ?_
        have hkv1 : kv.1 = itemKey it := by
          unfold itemKey
          rw [← hs, ← hct']
        rw [hkv1]
        exact List.mem_map_of_mem itemKey hmem
      · intro ids' hbad
        simp at hbad

theorem change_detection_update_rule_witness :
    ((postC6, ContentType.post,
        (buildChunksAndHash cfgFix postC6 ContentType.post).1)
        ∈ (indexAllPosts cfgFix [(postC6, ContentType.post)]
            [toStored chunkC6]).updatedItems
      ↔ ((buildChunksAndHash cfgFix postC6 ContentType.post).2
            ≠ ({ updated_at := none, content_hash := some "h" } : SnapshotEntry).content_hash
          ∨ tsNewer postC6.updated_at
              ({ updated_at := none, content_hash := some "h" } : SnapshotEntry).updated_at
            = true))
    ∧ (postC6, ContentType.post,
        (buildChunksAndHash cfgFix postC6 ContentType.post).1)
        ∉ (indexAllPosts cfgFix [(postC6, ContentType.post)]
            [toStored chunkC6]).newItems
    ∧ ((buildChunksAndHash cfgFix postC6 ContentType.post).2
          = ({ updated_at := none, content_hash := some "h" } : SnapshotEntry).content_hash →
        tsNewer postC6.updated_at
            ({ updated_at := none, content_hash := some "h" } : SnapshotEntry).updated_at
          = false →
        ∀ op ∈ (indexAllPosts cfgFix [(postC6, ContentType.post)]
            [toStored chunkC6]).ops,
          (∀ ids, op ≠ .deleteOp postC6.slug (some ContentType.post.toStr) ids)
          ∧ (∀ ids, op = .upsertOp ids →
              ∀ cid ∈ ids, ¬(cid.1 = ContentType.post.toStr ∧ cid.2.1 = postC6.id))) :=
  change_detection_update_rule cfgFix [toStored chunkC6] [(postC6, ContentType.post)]
    (postC6, ContentType.post) { updated_at := none, content_hash := some "h" }
    (by decide) (by decide) (by decide) (by decide) (by decide)

end ContraptionMCP
